import Mathlib

/-!
Verification development for the dotgo-transcode adaptive-bitrate packaging
pipeline.  The Go sources are shallowly embedded: pure functions become Lean
functions, the concurrent per-variant loops become folds over the variant list
(the Go code funnels every shared-state mutation through a mutex, so one
serialization of the workers is modelled; all properties proved about the
aggregates are order-independent counts and flags), file-system and
subprocess effects are abstracted as explicit oracle parameters, and Go's
`int` / `float64` are embedded as `Int` / `ℚ` (no value in scope approaches
overflow, and the only float arithmetic modelled, `kf + 0.5` followed by
truncation, is exact for the quantities involved).
-/

/-! ## Scaler: presets, client context, helpers (internal/scaler) -/

/-- Embedding of `scaler.ResolutionPreset` (types.go). -/
structure ResolutionPreset where
  width : Int
  height : Int
  label : String
  minBitrate : Int
  isDefault : Bool := false
deriving Repr, DecidableEq

/-- Embedding of `scaler.ClientContext` (client_context.go). -/
structure ClientContext where
  deviceType : String
  bandwidthKbps : Int
  preferUpscale : Bool
  allowLowRes : Bool
  manualOverride : String
  recentFailures : Int
  adaptiveEnabled : Bool
deriving Repr, DecidableEq

/-- Embedding of `scaler.ScalingDecision` (types.go). -/
structure ScalingDecision where
  preset : ResolutionPreset
  reason : String
deriving Repr, DecidableEq

/-- Embedding of `scaler.ScalerError` as built by `NewScalerError`. -/
structure ScalerError where
  op : String
  msg : String
deriving Repr, DecidableEq

/-- Embedding of `scaler.StandardPresets` (presets.go): the canonical catalog,
in descending resolution order. -/
def StandardPresets : List ResolutionPreset :=
  [ { width := 3840, height := 2160, label := "2160p", minBitrate := 12000 },
    { width := 2560, height := 1440, label := "1440p", minBitrate := 8000 },
    { width := 1920, height := 1080, label := "1080p", minBitrate := 5000, isDefault := true },
    { width := 1280, height := 720, label := "720p", minBitrate := 2500 },
    { width := 854, height := 480, label := "480p", minBitrate := 1000 },
    { width := 640, height := 360, label := "360p", minBitrate := 600 },
    { width := 426, height := 240, label := "240p", minBitrate := 300 } ]

/-- Characters Go's `unicode.IsSpace` recognises in the ASCII range; the
pipeline only ever handles ASCII labels and paths. -/
def goIsSpace (c : Char) : Bool :=
  c == ' ' || c == '\t' || c == '\n' || c == '\r' || c == '\x0b' || c == '\x0c'

/-- Go `strings.TrimSpace` on the character list. -/
def goTrimSpace (cs : List Char) : List Char :=
  ((cs.dropWhile goIsSpace).reverse.dropWhile goIsSpace).reverse

/-- Embedding of `scaler.NormalizeLabel` (helpers.go):
`strings.ToLower(strings.TrimSpace(label))`. -/
def NormalizeLabel (label : String) : String :=
  String.mk ((goTrimSpace label.data).map Char.toLower)

/-- Embedding of `scaler.IsUpscale` (helpers.go). -/
def IsUpscale (sourceWidth sourceHeight targetWidth targetHeight : Int) : Bool :=
  decide (targetWidth > sourceWidth) || decide (targetHeight > sourceHeight)

/-- Embedding of `scaler.DimensionsForLabel` (helpers.go); `none` models the
"resolution label not found" error return. -/
def DimensionsForLabel (label : String) : Option (Int × Int) :=
  (StandardPresets.find? (fun p => NormalizeLabel p.label == NormalizeLabel label)).map
    (fun p => (p.width, p.height))

/-- Fuelled digit emitter: the decimal digits of `n`, most significant first,
provided `fuel` bounds the recursion depth. -/
def natDigitsAux : Nat → Nat → List Char
  | 0, _ => []
  | fuel + 1, n => if n = 0 then [] else natDigitsAux fuel (n / 10) ++ [Nat.digitChar (n % 10)]

/-- Decimal digit characters of a natural number, most significant first
(Go `fmt` `%d` for a non-negative value). -/
def natDigitChars (n : Nat) : List Char :=
  if n = 0 then ['0'] else natDigitsAux n n

/-- Go `%d` rendering of an `int`. -/
def intChars (b : Int) : List Char :=
  if b < 0 then '-' :: natDigitChars (-b).toNat else natDigitChars b.toNat

/-- Go `%d` rendering as a `String`. -/
def intToString (b : Int) : String := String.mk (intChars b)

/-- Go `%t` / `%+v` rendering of a bool. -/
def boolToString (b : Bool) : String := if b then "true" else "false"

/-- Go `%+v` rendering of a `*ClientContext` (field names and values,
as `fmt` prints a pointed-to struct). -/
def formatClientContext (c : ClientContext) : String :=
  ("&\x7bDeviceType:") ++ c.deviceType ++ (" BandwidthKbps:") ++ intToString c.bandwidthKbps ++
    (" PreferUpscale:") ++ boolToString c.preferUpscale ++
    (" AllowLowRes:") ++ boolToString c.allowLowRes ++
    (" ManualOverride:") ++ c.manualOverride ++
    (" RecentFailures:") ++ intToString c.recentFailures ++
    (" AdaptiveEnabled:") ++ boolToString c.adaptiveEnabled ++ ("\x7d")

/-- Rationale string built by `SelectPreset` on its main path. -/
def selectReason (sourceWidth sourceHeight : Int) (preset : ResolutionPreset)
    (ctx : Option ClientContext) : String :=
  let base := ("Selected ") ++ preset.label ++ (" based on source ") ++
    intToString sourceWidth ++ ("x") ++ intToString sourceHeight
  match ctx with
  | none => base
  | some c => base ++ (" and client context ") ++ formatClientContext c

/-- Embedding of `scaler.SelectPreset` (the spec's `SelectInitial`): walk the
catalog in table order, skipping upscales (unless the context prefers
upscaling) and presets beyond the bandwidth estimate; fall back to the
catalog default; finally fail.  A `nil` context is `none`. -/
def SelectPreset (sourceWidth sourceHeight : Int) (ctx : Option ClientContext) :
    Except ScalerError ScalingDecision :=
  match StandardPresets.find? (fun preset =>
      !(IsUpscale sourceWidth sourceHeight preset.width preset.height &&
          (ctx.elim true (fun c => !c.preferUpscale))) &&
      !(ctx.elim false (fun c =>
          decide (0 < c.bandwidthKbps) && decide (preset.minBitrate > c.bandwidthKbps)))) with
  | some preset => .ok { preset := preset, reason := selectReason sourceWidth sourceHeight preset ctx }
  | none =>
    match StandardPresets.find? (fun preset => preset.isDefault) with
    | some preset =>
      .ok { preset := preset, reason := "No suitable preset found, falling back to default" }
    | none => .error { op := "SelectPreset", msg := "no valid resolution preset found" }

/-- Manual-override lookup of `AdjustResolution` (adaptive.go lines 7-13):
the first Go loop, entered only when an override label is set. -/
def overrideFind (ctx : ClientContext) : Option ResolutionPreset :=
  if ctx.manualOverride ≠ ("") then
    StandardPresets.find? (fun p => NormalizeLabel p.label == NormalizeLabel ctx.manualOverride)
  else none

/-- Downgrade scan of `AdjustResolution` (adaptive.go lines 20-27): walk the
catalog backwards (ascending resolution) when failures reach the threshold. -/
def downgradeFind (current : ResolutionPreset) (ctx : ClientContext) : Option ResolutionPreset :=
  if ctx.recentFailures ≥ 3 then
    StandardPresets.reverse.find? (fun p =>
      decide (p.minBitrate ≤ ctx.bandwidthKbps) && decide (p.height < current.height))
  else none

/-- Upgrade scan of `AdjustResolution` (adaptive.go lines 30-36): walk the
catalog in table order (descending resolution) when fully stable. -/
def upgradeFind (current : ResolutionPreset) (ctx : ClientContext) : Option ResolutionPreset :=
  if ctx.recentFailures = 0 then
    StandardPresets.find? (fun p =>
      decide (p.minBitrate ≤ ctx.bandwidthKbps) && decide (p.height > current.height))
  else none

/-- Embedding of `scaler.AdjustResolution` (adaptive.go).  The three Go
`for`-loops with early `return` are `List.find?`; a loop that finds nothing
falls through exactly as in the source. -/
def AdjustResolution (current : ResolutionPreset) (ctx : ClientContext) : ResolutionPreset :=
  match overrideFind ctx with
  | some p => p
  | none =>
    if !ctx.adaptiveEnabled then current
    else
      match downgradeFind current ctx with
      | some p => p
      | none =>
        match upgradeFind current ctx with
        | some p => p
        | none => current

/-- Catalog 1080p entry (the designated default), named for reuse in concrete
statements. -/
def preset1080 : ResolutionPreset :=
  { width := 1920, height := 1080, label := "1080p", minBitrate := 5000, isDefault := true }



/-! ## Path and string helpers shared by the pipeline stages -/

/-- Go `strings.Split` on a single-character separator (always returns at
least one piece). -/
def splitOnChar (sep : Char) : List Char → List (List Char)
  | [] => [[]]
  | c :: rest =>
    let r := splitOnChar sep rest
    if c = sep then [] :: r
    else (c :: r.headD []) :: r.tail

/-- Trailing slashes removed, as `filepath.Base` does first. -/
def stripTrailingSlashes (cs : List Char) : List Char :=
  (cs.reverse.dropWhile (fun c => c == '/')).reverse

/-- Characters after the last slash. -/
def lastComponent (cs : List Char) : List Char :=
  (cs.reverse.takeWhile (fun c => !(c == '/'))).reverse

/-- Go `filepath.Base` (unix rules). -/
def goBase (cs : List Char) : List Char :=
  if cs.isEmpty then ['.']
  else
    let t := stripTrailingSlashes cs
    if t.isEmpty then ['/'] else lastComponent t

/-- Go `filepath.Clean` (unix rules): collapse slashes, drop `.` elements,
resolve `..` elements. -/
def goClean (cs : List Char) : List Char :=
  if cs.isEmpty then ['.']
  else
    let rooted := cs.headD ' ' == '/'
    let elems := splitOnChar '/' cs
    let out := elems.foldl (fun acc e =>
      if e.isEmpty || e == ['.'] then acc
      else if e == ['.', '.'] then
        (if acc ≠ [] ∧ acc.getLastD [] ≠ ['.', '.'] then acc.dropLast
         else if rooted then acc else acc ++ [e])
      else acc ++ [e]) []
    let body := List.intercalate ['/'] out
    if rooted then '/' :: body
    else if body.isEmpty then ['.'] else body

/-- Go `filepath.Join` of two elements: the nonempty elements joined with a
slash and cleaned; empty when both are empty. -/
def joinPath (a b : String) : String :=
  if a.data.isEmpty then
    (if b.data.isEmpty then String.mk [] else String.mk (goClean b.data))
  else String.mk (goClean (a.data ++ '/' :: b.data))

/-- Go `filepath.Ext`: the suffix of the last path element from its final
dot, or empty when the last element has no dot. -/
def goExt (cs : List Char) : List Char :=
  let revComp := cs.reverse.takeWhile (fun c => !(c == '/'))
  if '.' ∈ revComp then ((revComp.takeWhile (fun c => !(c == '.'))) ++ ['.']).reverse else []

/-- Go `strings.TrimSuffix`. -/
def trimSuffixL (cs suffix : List Char) : List Char :=
  if suffix.isSuffixOf cs then cs.take (cs.length - suffix.length) else cs

/-- Slug derivation used by `Transcode`: the input's base name without its
extension. -/
def slugOf (inputPath : String) : String :=
  let baseName := goBase inputPath.data
  String.mk (trimSuffixL baseName (goExt baseName))

/-! ## Transcoder (internal/transcoder, final `Transcode` iteration) -/

/-- Embedding of `analyzer.MediaInfo`; Go `float64` fields are embedded as
exact rationals. -/
structure MediaInfo where
  width : Int
  height : Int
  duration : ℚ
  audioCodec : String
  videoCodec : String
  bitrate : Int
  framerate : ℚ
  keyframeInterval : ℚ
  keyframes : List ℚ
deriving Repr, DecidableEq

/-- Embedding of `transcoder.Variant` (profile.go): one requested
resolution/bitrate pair. -/
structure Variant where
  resolution : String
  bitrate : String
deriving Repr, DecidableEq

/-- Embedding of `transcoder.TranscodeProfile` (profile.go). -/
structure TranscodeProfile where
  inputPath : String
  outputDir : String
  resolutions : List String
  audioCodec : String
  videoCodec : String
  variants : List Variant
  segmentLength : Int
  container : String
  useHardwareAccel : Bool
  preserveManifest : Bool
deriving Repr, DecidableEq

/-- Embedding of `transcoder.TranscoderError` (errors.go); the attempted
command slice is platform-dependent (hardware-acceleration substitution) and
not inspected by any claim, so it is not carried. -/
structure TranscoderError where
  stage : String
  operation : String
  inputPath : String
  outputPath : String
  message : String
  exitCode : Int
deriving Repr, DecidableEq

/-- Embedding of `transcoder.ResolutionVariant` (types.go). -/
structure ResolutionVariant where
  width : Int
  height : Int
  bitrate : String
  scaleFlag : String
  outputFilename : String
deriving Repr, DecidableEq

/-- Embedding of `transcoder.TranscodeResult` (types.go). -/
structure TranscodeResult where
  inputPath : String
  outputDir : String
  duration : ℚ
  success : Bool
  variants : List ResolutionVariant
  profile : TranscodeProfile
  errors : List TranscoderError
deriving Repr, DecidableEq

/-- Height filter of `Transcode`: keep the requested variants whose label
resolves in the catalog with height at most the source height; unknown labels
are logged and dropped. -/
def allowedVariants (profile : TranscodeProfile) (media : MediaInfo) : List Variant :=
  profile.variants.filter (fun v =>
    match DimensionsForLabel v.resolution with
    | some wh => decide (wh.2 ≤ media.height)
    | none => false)

/-- Duplicate guard key `"<res>_<bitrate>"` used by the dispatcher. -/
def variantKey (v : Variant) : String := v.resolution ++ ("_") ++ v.bitrate

/-- Output filename `"<slug>_<res>_<bitrate>bps.mp4"` built per variant. -/
def transcodeOutputName (slug : String) (v : Variant) : String :=
  slug ++ ("_") ++ v.resolution ++ ("_") ++ v.bitrate ++ ("bps.mp4")

/-- Dimensions recorded for a variant: catalog lookup with fallback to the
source dimensions on an unknown label. -/
def resolveDims (media : MediaInfo) (v : Variant) : Int × Int :=
  match DimensionsForLabel v.resolution with
  | some wh => wh
  | none => (media.width, media.height)

/-- The `ResolutionVariant` recorded for a successfully encoded variant. -/
def variantRecord (media : MediaInfo) (slug : String) (v : Variant) : ResolutionVariant :=
  { width := (resolveDims media v).1, height := (resolveDims media v).2,
    bitrate := v.bitrate, scaleFlag := "auto",
    outputFilename := transcodeOutputName slug v }

/-- The structured error recorded when a variant's external invocation exits
non-zero: stage `execution`, operation `transcode`. -/
def executionError (profile : TranscodeProfile) (slug slugDir : String) (v : Variant) :
    TranscoderError :=
  { stage := "execution", operation := "transcode", inputPath := profile.inputPath,
    outputPath := joinPath slugDir (transcodeOutputName slug v),
    message := "ffmpeg command failed", exitCode := 1 }

/-- Shared aggregate state of the dispatcher workers (result fields plus the
duplicate-guard set), mutated under the mutex in the source. -/
structure TranscodeState where
  success : Bool
  variants : List ResolutionVariant
  errors : List TranscoderError
  seen : List String
deriving Repr, DecidableEq

/-- Body of one dispatcher worker (part of `Transcode`): duplicate-key guard,
dimension resolution, external invocation via the `exec` oracle, then either
the success record or the `execution` error. -/
def transcodeStep (profile : TranscodeProfile) (media : MediaInfo) (exec : Variant → Bool)
    (slug slugDir : String) (s : TranscodeState) (v : Variant) : TranscodeState :=
  if variantKey v ∈ s.seen then s
  else
    let seen' := s.seen ++ [variantKey v]
    if exec v then
      { s with
        seen := seen'
        variants := s.variants ++ [variantRecord media slug v] }
    else
      { s with
        seen := seen'
        success := false
        errors := s.errors ++ [executionError profile slug slugDir v] }

/-- Embedding of `transcoder.Transcode` (final iteration): the post-setup
computation, after path validation and slug-directory creation have
succeeded.  The concurrent workers are modelled as one serialization of the
mutex-guarded updates; `exec` tells whether a variant's external invocation
exits zero. -/
def Transcode (profile : TranscodeProfile) (media : MediaInfo) (exec : Variant → Bool) :
    TranscodeResult :=
  let slug := slugOf profile.inputPath
  let slugDir := joinPath profile.outputDir slug
  let allowed := allowedVariants profile media
  let final := allowed.foldl (transcodeStep profile media exec slug slugDir)
    { success := true, variants := [], errors := [], seen := [] }
  { inputPath := profile.inputPath, outputDir := slugDir, duration := media.duration,
    success := final.success, variants := final.variants, profile := profile,
    errors := final.errors }

/-- Concrete 1080p source descriptor for witness runs. -/
def mediaFullHD : MediaInfo :=
  { width := 1920, height := 1080, duration := 60, audioCodec := "aac",
    videoCodec := "h264", bitrate := 6000, framerate := 30,
    keyframeInterval := 2, keyframes := [] }

/-- Concrete profile requesting five distinct variants, all within a 1080p
source. -/
def profileFive : TranscodeProfile :=
  { inputPath := "media/movie.mp4", outputDir := "media/output", resolutions := [],
    audioCodec := "aac", videoCodec := "h264",
    variants := [{ resolution := "1080p", bitrate := "5000k" },
      { resolution := "720p", bitrate := "3000k" },
      { resolution := "480p", bitrate := "1500k" },
      { resolution := "360p", bitrate := "1000k" },
      { resolution := "240p", bitrate := "500k" }],
    segmentLength := 4, container := "mp4", useHardwareAccel := false,
    preserveManifest := false }

/-- Oracle under which exactly the 720p invocation exits non-zero. -/
def execFailing720 : Variant → Bool := fun v => !(v.resolution == "720p")

/-! ## Segmenter (internal/segmenter, final `SegmentMedia` iteration) -/

/-- Go `strings.ToLower` (ASCII). -/
def goToLower (s : String) : String := String.mk (s.data.map Char.toLower)

/-- Embedding of `segmenter.manifestExtension` (helpers.go). -/
def manifestExtension (format : String) : String :=
  if goToLower format = ("hls") then ("m3u8")
  else if goToLower format = ("dash") then ("mpd")
  else ("txt")

/-- Embedding of `segmenter.LabelFromFilename` (types_helpers.go): first
underscore-separated part ending in `p`, else "unknown". -/
def LabelFromFilename (filename : String) : String :=
  match (splitOnChar '_' filename.data).find? (fun part => ("p").data.isSuffixOf part) with
  | some part => String.mk part
  | none => "unknown"

/-- Go conversion `int(f)`: truncation toward zero. -/
def ratTrunc (q : ℚ) : Int := if q < 0 then ⌈q⌉ else ⌊q⌋

/-- Go `%.2f` rendering of a rational (used only inside the keyframe
expression handed to the external tool; the exact midpoint rounding mode is
not load-bearing for any claim). -/
def format2f (q : ℚ) : String :=
  let scaled : Int := ratTrunc (q * 100 + 1 / 2)
  let n := scaled.natAbs
  let whole := n / 100
  let frac := n % 100
  String.mk ((if scaled < 0 then ['-'] else []) ++ natDigitChars whole ++
    '.' :: (if frac < 10 then '0' :: natDigitChars frac else natDigitChars frac))

/-- Embedding of `segmenter.buildSegmentCommand` (helpers.go). -/
def buildSegmentCommand (inputPath outputDir manifestName format : String)
    (segmentLength : Int) (media : Option MediaInfo) : List String :=
  let segLen := intToString segmentLength
  let forceKeyframes : List String :=
    match media with
    | some mi =>
      if 0 < mi.keyframeInterval then
        [("-force_key_frames"), ("expr:gte(t,n_forced*") ++ format2f mi.keyframeInterval ++ (")")]
      else []
    | none => []
  if goToLower format = ("hls") then
    [("ffmpeg"), ("-i"), inputPath, ("-c"), ("copy"), ("-f"), ("hls"),
      ("-hls_time"), segLen, ("-hls_playlist_type"), ("vod"),
      ("-hls_segment_filename"), joinPath outputDir ("segment_%03d.ts")] ++
      forceKeyframes ++ [manifestName]
  else if goToLower format = ("dash") then
    [("ffmpeg"), ("-i"), inputPath, ("-c"), ("copy"), ("-f"), ("dash"),
      ("-seg_duration"), segLen, ("-use_timeline"), ("1"), ("-use_template"), ("1")] ++
      forceKeyframes ++ [joinPath outputDir manifestName]
  else [("echo"), ("unsupported format")]

/-- Effective segment duration computed inside `SegmentMedia` (segmenter.go
lines 197-202): the profile's configured value, or — when that is zero, a
descriptor is available and its keyframe interval is positive — the keyframe
interval plus one half, truncated to an integer (Go `int(f + 0.5)`). -/
def effectiveSegmentLength (profileLen : Int) (mediaInfo : Option MediaInfo) : Int :=
  if profileLen = 0 then
    match mediaInfo with
    | some mi => if 0 < mi.keyframeInterval then ratTrunc (mi.keyframeInterval + 1 / 2) else profileLen
    | none => profileLen
  else profileLen

/-- Embedding of `segmenter.SegmenterError` (errors.go); the wrapped cause is
not carried. -/
structure SegmenterError where
  op : String
  msg : String
deriving Repr, DecidableEq

/-- Embedding of `segmenter.SegmentResult` (types). -/
structure SegmentResult where
  outputDir : String
  format : String
  success : Bool
  manifests : List String
  errors : List SegmenterError
deriving Repr, DecidableEq

/-- Body of one segmenter worker (part of `SegmentMedia`): directory
creation, descriptor extraction and external invocation are the `mkdirOK`,
`analyze` and `run` oracles. -/
def segmentStep (res : TranscodeResult) (format : String)
    (analyze : String → Option MediaInfo) (mkdirOK : String → Bool)
    (run : List String → Bool) (s : SegmentResult) (variant : ResolutionVariant) :
    SegmentResult :=
  let inputPath := joinPath res.outputDir variant.outputFilename
  let label := LabelFromFilename variant.outputFilename
  let outputDir := joinPath res.outputDir label
  if !(mkdirOK outputDir) then
    { s with
      success := false
      errors := s.errors ++
        [{ op := "filesystem", msg := ("failed to create segment dir for ") ++ label }] }
  else
    let mediaInfo := analyze inputPath
    let segmentLength := effectiveSegmentLength res.profile.segmentLength mediaInfo
    let manifestName := label ++ (".") ++ manifestExtension format
    let manifestPath := joinPath outputDir manifestName
    if !(run (buildSegmentCommand inputPath outputDir manifestName format segmentLength mediaInfo)) then
      { s with
        success := false
        errors := s.errors ++
          [{ op := "segment", msg := ("failed to segment ") ++ variant.outputFilename }] }
    else { s with manifests := s.manifests ++ [manifestPath] }

/-- Embedding of `segmenter.SegmentMedia` (final iteration): a nil or
variant-less result is rejected up front; otherwise every variant is
processed, failures recorded without aborting siblings. -/
def SegmentMedia (result : Option TranscodeResult) (format : String)
    (analyze : String → Option MediaInfo) (mkdirOK : String → Bool)
    (run : List String → Bool) : Except SegmenterError SegmentResult :=
  match result with
  | none => .error { op := "validate", msg := "no variants to segment" }
  | some res =>
    if res.variants.length = 0 then
      .error { op := "validate", msg := "no variants to segment" }
    else
      .ok (res.variants.foldl (segmentStep res format analyze mkdirOK run)
        { outputDir := res.outputDir, format := format, success := true,
          manifests := [], errors := [] })

/-! ## Manifester (internal/manifester) -/

/-- Embedding of `manifester.ManifesterError` as built by
`NewManifesterError`; the wrapped cause is not carried. -/
structure ManifesterError where
  op : String
  msg : String
deriving Repr, DecidableEq

/-- Embedding of `manifester.ManifestMeta`. -/
structure ManifestMeta where
  label : String
  bitrate : Int
  resolution : String
  manifestURL : String
deriving Repr, DecidableEq

/-- Embedding of `manifester.extractLabel` (dash.go): base filename up to the
first dot. -/
def extractLabel (path : String) : String :=
  match splitOnChar '.' (goBase path.data) with
  | [] => "unknown"
  | part :: _ => String.mk part

/-- Embedding of `manifester.estimateBitrate` (dash.go): fixed label to
bits-per-second table. -/
def estimateBitrate (label : String) : Int :=
  let l := goToLower label
  if l = ("1080p") then 5000000
  else if l = ("720p") then 3000000
  else if l = ("480p") then 1500000
  else if l = ("360p") then 1000000
  else if l = ("240p") then 500000
  else if l = ("144p") then 150000
  else 1000000

/-- Embedding of `manifester.resolutionFromLabel` (dash.go). -/
def resolutionFromLabel (label : String) : String :=
  let l := goToLower label
  if l = ("1080p") then ("1920x1080")
  else if l = ("720p") then ("1280x720")
  else if l = ("480p") then ("854x480")
  else if l = ("360p") then ("640x360")
  else if l = ("240p") then ("426x240")
  else if l = ("144p") then ("256x144")
  else ("640x360")

/-- Literal-text matcher of `fmt.Sscanf`: consume `p` exactly. -/
def dropPref : List Char → List Char → Option (List Char)
  | [], cs => some cs
  | _ :: _, [] => none
  | p :: ps, c :: cs => if c = p then dropPref ps cs else none

/-- Optional sign accepted by the `%d` verb. -/
def readSign (cs : List Char) : Bool × List Char :=
  match cs with
  | c :: t => if c = '-' then (true, t) else if c = '+' then (false, t) else (false, c :: t)
  | [] => (false, [])

/-- Value of a decimal digit character. -/
def digitVal (c : Char) : Nat := c.toNat - ('0').toNat

/-- Decimal reading of a digit run, most significant first. -/
def digitsToNat (ds : List Char) : Nat := ds.foldl (fun a c => 10 * a + digitVal c) 0

/-- Model of `fmt.Sscanf(inf, "#EXT-X-STREAM-INF:BANDWIDTH=%d,RESOLUTION=%s", ...)`
on one line: literal prefix, `%d` (leading spaces skipped, optional sign,
nonempty digit run), literal `,RESOLUTION=`, `%s` (leading spaces skipped,
nonempty maximal non-space run); trailing input is ignored. -/
def parseInfLine (cs : List Char) : Option (Int × String) :=
  match dropPref ("#EXT-X-STREAM-INF:BANDWIDTH=").data cs with
  | none => none
  | some r1 =>
    let r1 := r1.dropWhile goIsSpace
    let sr := readSign r1
    let ds := sr.2.takeWhile Char.isDigit
    if ds.isEmpty then none
    else
      let bw : Int := if sr.1 then -(digitsToNat ds : Int) else (digitsToNat ds : Int)
      match dropPref (",RESOLUTION=").data (sr.2.dropWhile Char.isDigit) with
      | none => none
      | some r2 =>
        let r2 := r2.dropWhile goIsSpace
        let rs := r2.takeWhile (fun c => !(goIsSpace c))
        if rs.isEmpty then none else some (bw, String.mk rs)

/-- Embedding of the scanning loop of `manifester.parseHLSManifest` (dash.go):
every line bearing the stream-header tag is parsed together with the line
that follows it; the loop advances one line at a time. -/
def parseHLSLines : List (List Char) → List ManifestMeta
  | [] => []
  | a :: rest =>
    (match rest.head? with
     | some b =>
       if ("#EXT-X-STREAM-INF").data.isPrefixOf a then
         match parseInfLine a with
         | some bwres =>
           [{ label := extractLabel (String.mk b)
              bitrate := bwres.1
              resolution := bwres.2
              manifestURL := String.mk b }]
         | none => []
       else []
     | none => []) ++ parseHLSLines rest

/-- Embedding of `manifester.parseHLSManifest` (dash.go): split the raw text
on newlines and scan. -/
def parseHLSManifest (raw : String) : List ManifestMeta :=
  parseHLSLines (splitOnChar '\n' raw.data)

/-- The `(label, entry)` pair built for one newly produced sub-manifest
(reconcileHLSMaster, dash.go lines 175-184). -/
def newEntryFor (manifest : String) : String × ManifestMeta :=
  let label := extractLabel manifest
  (label,
    { label := label
      bitrate := estimateBitrate label
      resolution := resolutionFromLabel label
      manifestURL := joinPath label (String.mk (goBase manifest.data)) })

/-- The new-entry map of `reconcileHLSMaster`, as its assignment sequence. -/
def newPairs (manifests : List String) : List (String × ManifestMeta) :=
  manifests.map newEntryFor

/-- The existing-entry assignments of `reconcileHLSMaster`. -/
def existingPairs (raw : String) : List (String × ManifestMeta) :=
  (parseHLSManifest raw).map (fun e => (e.label, e))

/-- Final content of a Go map built by assigning the pairs in order: the last
assignment to a key wins. -/
def lastAssoc (ps : List (String × ManifestMeta)) (k : String) : Option ManifestMeta :=
  (ps.reverse.find? (fun q => q.1 == k)).map Prod.snd

/-- Lookup in the merged map of `reconcileHLSMaster` (existing entries
assigned first, new entries overwrite). -/
def mergedLookup (raw : String) (manifests : List String) (k : String) : Option ManifestMeta :=
  lastAssoc (existingPairs raw ++ newPairs manifests) k

/-- Canonical resolution order used when re-emitting reconciled entries
(dash.go line 196). -/
def canonicalOrder : List String :=
  ["144p", "240p", "360p", "480p", "720p", "1080p", "1440p", "2160p"]

/-- Merged-and-sorted entry list of `reconcileHLSMaster` (dash.go lines
186-202): walk the canonical order, emitting the merged entry per label. -/
def reconcileEntries (raw : String) (manifests : List String) : List ManifestMeta :=
  canonicalOrder.filterMap (mergedLookup raw manifests)

/-- One `#EXT-X-STREAM-INF` header line as written by the manifester. -/
def infLineChars (e : ManifestMeta) : List Char :=
  ("#EXT-X-STREAM-INF:BANDWIDTH=").data ++ intChars e.bitrate ++
    (",RESOLUTION=").data ++ e.resolution.data

/-- One two-line manifest entry as written by the manifester. -/
def entryChars (e : ManifestMeta) : List Char :=
  infLineChars e ++ '\n' :: (e.manifestURL.data ++ ['\n'])

/-- Serialization of a master playlist: header then one block per entry
(dash.go lines 213-220). -/
def writeHLSMaster (entries : List ManifestMeta) : String :=
  String.mk (("#EXTM3U\n#EXT-X-VERSION:3\n").data ++ (entries.map entryChars).flatten)

/-- Embedding of `manifester.reconcileHLSMaster` (dash.go lines 158-223): the
existing master's content is passed explicitly (the file read is abstracted,
assumed successful), and the rewritten master's content is returned. -/
def reconcileHLSMaster (existingRaw : String) (manifests : List String) : String :=
  writeHLSMaster (reconcileEntries existingRaw manifests)

/-- Embedding of `manifester.generateHLSMaster` (dash.go lines 80-106): fresh
master playlist in production order. -/
def generateHLSMaster (manifests : List String) : String :=
  String.mk (("#EXTM3U\n#EXT-X-VERSION:3\n").data ++
    (manifests.map (fun m => entryChars (newEntryFor m).2)).flatten)

/-- Embedding of `manifester.generateDASHMaster` (dash.go lines 23-56). -/
def generateDASHMaster (manifests : List String) : String :=
  ("<?xml version=\"1.0\" encoding=\"UTF-8\"?>\n") ++
  ("<MPD xmlns=\"urn:mpeg:dash:schema:mpd:2011\" type=\"static\" minBufferTime=\"PT1.5S\" profiles=\"urn:mpeg:dash:profile:isoff-on-demand:2011\">\n") ++
  ("  <Period>\n") ++
  String.join (manifests.map (fun m =>
    let label := extractLabel m
    let bitrate := estimateBitrate label
    let uri := joinPath label (String.mk (goBase m.data))
    ("    <AdaptationSet mimeType=\"video/mp4\" codecs=\"avc1.64001f\" segmentAlignment=\"true\" bitstreamSwitching=\"true\">\n") ++
    ("      <Representation id=\"") ++ label ++ ("\" bandwidth=\"") ++ intToString bitrate ++ ("\">\n") ++
    ("        <BaseURL>") ++ uri ++ ("</BaseURL>\n") ++
    ("      </Representation>\n") ++
    ("    </AdaptationSet>\n"))) ++
  ("  </Period>\n") ++
  ("</MPD>\n")

/-- Embedding of `manifester.GenerateMasterManifest` (the aggregation entry
point): nil or empty input is rejected before any work; otherwise dispatch on
format and the preserve flag.  `existingRaw` is the prior master's content
consumed by the reconcile path. -/
def GenerateMasterManifest (seg : Option SegmentResult) (preserve : Bool)
    (existingRaw : String) : Except ManifesterError String :=
  match seg with
  | none => .error { op := "validate", msg := "no manifests to aggregate" }
  | some s =>
    if s.manifests.length = 0 then
      .error { op := "validate", msg := "no manifests to aggregate" }
    else if goToLower s.format = ("hls") then
      (if preserve then .ok (reconcileHLSMaster existingRaw s.manifests)
       else .ok (generateHLSMaster s.manifests))
    else if goToLower s.format = ("dash") then .ok (generateDASHMaster s.manifests)
    else .error { op := "validate", msg := ("unsupported format: ") ++ s.format }

/-- Concrete profile whose single requested variant exceeds a 1080p source. -/
def profileUpscaleOnly : TranscodeProfile :=
  { inputPath := "media/movie.mp4"
    outputDir := "media/output"
    resolutions := []
    audioCodec := "aac"
    videoCodec := "h264"
    variants := [{ resolution := "2160p", bitrate := "8000k" }]
    segmentLength := 4
    container := "mp4"
    useHardwareAccel := false
    preserveManifest := false }

/-- Concrete one-variant transcode result fed to a witness segmentation run. -/
def segInputW : TranscodeResult :=
  { inputPath := "m.mp4"
    outputDir := "out/m"
    duration := 60
    success := true
    variants := [{ width := 1280, height := 720, bitrate := "3000k", scaleFlag := "auto", outputFilename := "m_720p_3000kbps.mp4" }]
    profile := profileFive
    errors := [] }

/-- Concrete descriptor whose measured keyframe interval is exactly 3.2
seconds. -/
def mediaKF32 : MediaInfo :=
  { width := 1920
    height := 1080
    duration := 60
    audioCodec := "aac"
    videoCodec := "h264"
    bitrate := 6000
    framerate := 30
    keyframeInterval := 16 / 5
    keyframes := [] }

/-- The segment result of the witness run over `segInputW`. -/
def segResW : SegmentResult :=
  { outputDir := "out/m"
    format := "hls"
    success := true
    manifests := ["out/m/720p/720p.m3u8"]
    errors := [] }

/-- Well-formedness of one manifest entry, under which serialization and
re-parsing invert each other: the resolution token is a nonempty whitespace-free
run (exactly what the `%s` verb reproduces), the URL line contains no newline
and is not itself a stream-header line, and the label agrees with the label
the parser would re-derive from the URL. -/
def wfEntry (e : ManifestMeta) : Prop :=
  e.resolution.data ≠ [] ∧
  (∀ c ∈ e.resolution.data, goIsSpace c = false) ∧
  ('\n' ∉ e.manifestURL.data) ∧
  (("#EXT-X-STREAM-INF").data.isPrefixOf e.manifestURL.data = false) ∧
  extractLabel e.manifestURL = e.label

instance (e : ManifestMeta) : Decidable (wfEntry e) := by
  unfold wfEntry; infer_instance

/-- Well-formedness of a whole entry list. -/
def wfEntries (es : List ManifestMeta) : Prop := ∀ e ∈ es, wfEntry e

instance (es : List ManifestMeta) : Decidable (wfEntries es) := by
  unfold wfEntries; infer_instance

/-- The line sequence a serialized master playlist decomposes into: one
header line and one URL line per entry, and the trailing empty piece the
final newline produces. -/
def linesOf (es : List ManifestMeta) : List (List Char) :=
  es.foldr (fun e acc => infLineChars e :: e.manifestURL.data :: acc) [[]]

/-- Adversarial existing manifest whose first entry's URL line is itself a
stream-header line (the parser accepts it: the URL is simply the next line). -/
def manifestHeaderURL : String :=
  "#EXTM3U\n#EXT-X-VERSION:3\n#EXT-X-STREAM-INF:BANDWIDTH=1,RESOLUTION=r\n#EXT-X-STREAM-INF:BANDWIDTH=2,RESOLUTION=s/720p.m3u8\nx/1080p.m3u8\n"

/-- Existing manifest whose only entry bears the non-canonical label `999p`. -/
def manifest999p : String :=
  "#EXTM3U\n#EXT-X-VERSION:3\n#EXT-X-STREAM-INF:BANDWIDTH=7,RESOLUTION=100x99\n999p/999p.m3u8\n"

/-- Ordinary existing manifest carrying a single 720p entry. -/
def manifest720p : String :=
  "#EXTM3U\n#EXT-X-VERSION:3\n#EXT-X-STREAM-INF:BANDWIDTH=3000000,RESOLUTION=1280x720\n720p/720p.m3u8\n"

/-- Existing manifest carrying a stale 720p entry (bandwidth 999) and an
old-only 360p entry. -/
def manifest720p360p : String :=
  "#EXTM3U\n#EXT-X-VERSION:3\n#EXT-X-STREAM-INF:BANDWIDTH=999,RESOLUTION=1280x720\nold/720p.m3u8\n#EXT-X-STREAM-INF:BANDWIDTH=1000000,RESOLUTION=640x360\n360p/360p.m3u8\n"

/-- The 720p entry the manifester builds for a new `720p.m3u8` sub-manifest. -/
def new720Entry : ManifestMeta :=
  { label := "720p"
    bitrate := 3000000
    resolution := "1280x720"
    manifestURL := "720p/720p.m3u8" }

/-- The old-only 360p entry of `manifest720p360p`. -/
def old360Entry : ManifestMeta :=
  { label := "360p"
    bitrate := 1000000
    resolution := "640x360"
    manifestURL := "360p/360p.m3u8" }
/-- The fuelled emitter agrees with `Nat.digits` once the fuel covers `n`. -/
theorem natDigitsAux_eq_digits : ∀ (n fuel : Nat), n ≤ fuel →
    natDigitsAux fuel n = ((Nat.digits 10 n).map Nat.digitChar).reverse := by
  intro n
  induction n using Nat.strong_induction_on with
  | _ n ih =>
    intro fuel hfuel
    cases fuel with
    | zero =>
      have hn : n = 0 := by omega
      subst hn
      simp [natDigitsAux]
    | succ f =>
      by_cases hn : n = 0
      · subst hn; simp [natDigitsAux]
      · have hpos : 0 < n := Nat.pos_of_ne_zero hn
        have hdiv : n / 10 < n := Nat.div_lt_self hpos (by omega)
        have hrec := ih (n / 10) hdiv f (by omega)
        rw [Nat.digits_def' (b := 10) (by omega) hpos]
        simp only [natDigitsAux, if_neg hn, hrec, List.map_cons, List.reverse_cons]

/-- Expression of `natDigitChars` through `Nat.digits`. -/
theorem natDigitChars_eq_digits (n : Nat) (h : n ≠ 0) :
    natDigitChars n = ((Nat.digits 10 n).map Nat.digitChar).reverse := by
  unfold natDigitChars
  rw [if_neg h]
  exact natDigitsAux_eq_digits n n le_rfl

/-! ## Catalog ordering lemmas -/

/-- In a list strictly descending by height, once `find?` has located a
match above `X`, no element above the found height matches at all. -/
theorem find?_above_none (fit : ResolutionPreset → Bool) :
    ∀ (l : List ResolutionPreset), l.Pairwise (fun a b => a.height > b.height) →
    ∀ (X : Int) (u : ResolutionPreset),
      l.find? (fun q => fit q && decide (q.height > X)) = some u →
      l.find? (fun q => fit q && decide (q.height > u.height)) = none := by
  intro l
  induction l with
  | nil => intro _ X u h; simp [List.find?] at h
  | cons a t ih =>
    intro hl X u h
    obtain ⟨ha, ht⟩ := List.pairwise_cons.mp hl
    by_cases hpa : (fit a && decide (a.height > X)) = true
    · rw [List.find?_cons_of_pos (p := fun q => fit q && decide (q.height > X)) t hpa] at h
      injection h with h; subst h
      apply List.find?_eq_none.mpr
      intro x hx
      rcases List.mem_cons.mp hx with rfl | hx
      · simp
      · have hlt := ha x hx
        simp only [Bool.and_eq_true, decide_eq_true_eq, not_and]
        intro _ hgt
        omega
    · rw [List.find?_cons_of_neg (p := fun q => fit q && decide (q.height > X)) t hpa] at h
      have hXu : u.height > X := by
        have hp := List.find?_some h
        simp only [Bool.and_eq_true, decide_eq_true_eq] at hp
        exact hp.2
      have hfa : ¬ (fit a && decide (a.height > u.height)) = true := by
        intro hc
        simp only [Bool.and_eq_true, decide_eq_true_eq] at hc
        apply hpa
        simp only [Bool.and_eq_true, decide_eq_true_eq]
        exact ⟨hc.1, by omega⟩
      rw [List.find?_cons_of_neg (p := fun q => fit q && decide (q.height > u.height)) t hfa]
      exact ih ht X u h

/-- In a list strictly ascending by height, once `find?` has located a
match below `X`, no element below the found height matches at all. -/
theorem find?_below_none (fit : ResolutionPreset → Bool) :
    ∀ (l : List ResolutionPreset), l.Pairwise (fun a b => a.height < b.height) →
    ∀ (X : Int) (u : ResolutionPreset),
      l.find? (fun q => fit q && decide (q.height < X)) = some u →
      l.find? (fun q => fit q && decide (q.height < u.height)) = none := by
  intro l
  induction l with
  | nil => intro _ X u h; simp [List.find?] at h
  | cons a t ih =>
    intro hl X u h
    obtain ⟨ha, ht⟩ := List.pairwise_cons.mp hl
    by_cases hpa : (fit a && decide (a.height < X)) = true
    · rw [List.find?_cons_of_pos (p := fun q => fit q && decide (q.height < X)) t hpa] at h
      injection h with h; subst h
      apply List.find?_eq_none.mpr
      intro x hx
      rcases List.mem_cons.mp hx with rfl | hx
      · simp
      · have hlt := ha x hx
        simp only [Bool.and_eq_true, decide_eq_true_eq, not_and]
        intro _ hgt
        omega
    · rw [List.find?_cons_of_neg (p := fun q => fit q && decide (q.height < X)) t hpa] at h
      have hXu : u.height < X := by
        have hp := List.find?_some h
        simp only [Bool.and_eq_true, decide_eq_true_eq] at hp
        exact hp.2
      have hfa : ¬ (fit a && decide (a.height < u.height)) = true := by
        intro hc
        simp only [Bool.and_eq_true, decide_eq_true_eq] at hc
        apply hpa
        simp only [Bool.and_eq_true, decide_eq_true_eq]
        exact ⟨hc.1, by omega⟩
      rw [List.find?_cons_of_neg (p := fun q => fit q && decide (q.height < u.height)) t hfa]
      exact ih ht X u h

/-- Reduction of `downgradeFind` when the failure threshold is not reached. -/
theorem downgradeFind_of_stable (current : ResolutionPreset) (ctx : ClientContext)
    (h : ¬ ctx.recentFailures ≥ 3) : downgradeFind current ctx = none := by
  unfold downgradeFind; rw [if_neg h]

/-- Reduction of `upgradeFind` when failures are nonzero. -/
theorem upgradeFind_of_failing (current : ResolutionPreset) (ctx : ClientContext)
    (h : ¬ ctx.recentFailures = 0) : upgradeFind current ctx = none := by
  unfold upgradeFind; rw [if_neg h]

/-- C7: `AdjustResolution` is idempotent under an unchanged context: applying
the adjustment a second time with the same context produces no further
change. -/
theorem adjustResolution_idempotent (current : ResolutionPreset) (ctx : ClientContext) :
    AdjustResolution (AdjustResolution current ctx) ctx = AdjustResolution current ctx := by
  have hdesc : StandardPresets.Pairwise (fun a b => a.height > b.height) := by decide
  have hasc : StandardPresets.reverse.Pairwise (fun a b => a.height < b.height) := by decide
  cases ho : overrideFind ctx with
  | some p => simp only [AdjustResolution, ho]
  | none =>
    by_cases hae : ctx.adaptiveEnabled
    case neg =>
      have hne : (!ctx.adaptiveEnabled) = true := by simp [hae]
      simp only [AdjustResolution, ho, hne, if_pos]
    case pos =>
      have hne : (!ctx.adaptiveEnabled) = false := by simp [hae]
      by_cases hf3 : ctx.recentFailures ≥ 3
      · have hf0 : ¬ ctx.recentFailures = 0 := by omega
        cases hd : downgradeFind current ctx with
        | some p =>
          have hd' : StandardPresets.reverse.find? (fun q =>
              (fun r => decide (r.minBitrate ≤ ctx.bandwidthKbps)) q &&
                decide (q.height < current.height)) = some p := by
            have := hd
            unfold downgradeFind at this
            rwa [if_pos hf3] at this
          have hnone := find?_below_none (fun r => decide (r.minBitrate ≤ ctx.bandwidthKbps))
            StandardPresets.reverse hasc current.height p hd'
          have hdp : downgradeFind p ctx = none := by
            unfold downgradeFind; rw [if_pos hf3]; exact hnone
          simp only [AdjustResolution, ho, hne, Bool.false_eq_true, if_false, hd, hdp,
            upgradeFind_of_failing _ ctx hf0]
        | none =>
          simp only [AdjustResolution, ho, hne, Bool.false_eq_true, if_false, hd,
            upgradeFind_of_failing _ ctx hf0]
      · by_cases hf0 : ctx.recentFailures = 0
        · cases hu : upgradeFind current ctx with
          | some p =>
            have hu' : StandardPresets.find? (fun q =>
                (fun r => decide (r.minBitrate ≤ ctx.bandwidthKbps)) q &&
                  decide (q.height > current.height)) = some p := by
              have := hu
              unfold upgradeFind at this
              rwa [if_pos hf0] at this
            have hnone := find?_above_none (fun r => decide (r.minBitrate ≤ ctx.bandwidthKbps))
              StandardPresets hdesc current.height p hu'
            have hup : upgradeFind p ctx = none := by
              unfold upgradeFind; rw [if_pos hf0]; exact hnone
            simp only [AdjustResolution, ho, hne, Bool.false_eq_true, if_false,
              downgradeFind_of_stable _ ctx hf3, hu, hup]
          | none =>
            simp only [AdjustResolution, ho, hne, Bool.false_eq_true, if_false,
              downgradeFind_of_stable _ ctx hf3, hu]
        · simp only [AdjustResolution, ho, hne, Bool.false_eq_true, if_false,
            downgradeFind_of_stable _ ctx hf3, upgradeFind_of_failing _ ctx hf0]

/-- C6 counterexample: current 480p, no override, adaptive, zero failures,
bandwidth 20000.  Scanning the catalog in ascending-bitrate-requirement order,
the first preset that fits the budget and is strictly larger than 480p is the
720p entry — but `AdjustResolution` returns the 2160p entry, so the claimed
"cautious, lowest-qualifying upgrade" is false on the code. -/
theorem adjustResolution_not_lowest_upgrade :
    StandardPresets.reverse.find? (fun p =>
        decide (p.minBitrate ≤ (20000 : Int)) && decide (p.height > (480 : Int))) =
      some { width := 1280, height := 720, label := "720p", minBitrate := 2500 } ∧
    AdjustResolution
        { width := 854, height := 480, label := "480p", minBitrate := 1000 }
        { deviceType := "", bandwidthKbps := 20000, preferUpscale := false,
          allowLowRes := false, manualOverride := "", recentFailures := 0,
          adaptiveEnabled := true } =
      { width := 3840, height := 2160, label := "2160p", minBitrate := 12000 } ∧
    ({ width := 1280, height := 720, label := "720p", minBitrate := 2500 } : ResolutionPreset) ≠
      { width := 3840, height := 2160, label := "2160p", minBitrate := 12000 } := by
  refine ⟨by decide, by decide, by decide⟩

/-- C6 amended: with no manual override, adaptive mode enabled and zero recent
failures, `AdjustResolution` scans the catalog in its table (descending
resolution) order, so whenever any preset fits the bandwidth budget and is
strictly larger than the current preset it returns the LARGEST such preset —
an aggressive upgrade, not the claimed lowest-qualifying one. -/
theorem adjustResolution_stable_upgrade_largest (current : ResolutionPreset)
    (ctx : ClientContext)
    (hov : ctx.manualOverride = (""))
    (hae : ctx.adaptiveEnabled = true)
    (hf0 : ctx.recentFailures = 0)
    (hex : ∃ q ∈ StandardPresets,
      q.minBitrate ≤ ctx.bandwidthKbps ∧ q.height > current.height) :
    AdjustResolution current ctx ∈ StandardPresets ∧
    (AdjustResolution current ctx).minBitrate ≤ ctx.bandwidthKbps ∧
    (AdjustResolution current ctx).height > current.height ∧
    ∀ q ∈ StandardPresets, q.minBitrate ≤ ctx.bandwidthKbps →
      q.height > current.height → q.height ≤ (AdjustResolution current ctx).height := by
  have hdesc : StandardPresets.Pairwise (fun a b => a.height > b.height) := by decide
  have ho : overrideFind ctx = none := by
    unfold overrideFind
    rw [if_neg (by simp [hov])]
  have hne : (!ctx.adaptiveEnabled) = false := by simp [hae]
  have hf3 : ¬ ctx.recentFailures ≥ 3 := by omega
  have hsome : (StandardPresets.find? (fun p =>
      decide (p.minBitrate ≤ ctx.bandwidthKbps) && decide (p.height > current.height))).isSome := by
    apply List.find?_isSome.mpr
    obtain ⟨q, hq, h1, h2⟩ := hex
    exact ⟨q, hq, by simp only [Bool.and_eq_true, decide_eq_true_eq]; exact ⟨h1, h2⟩⟩
  obtain ⟨u, hu⟩ := Option.isSome_iff_exists.mp hsome
  have hup : upgradeFind current ctx = some u := by
    unfold upgradeFind; rw [if_pos hf0]; exact hu
  have hadj : AdjustResolution current ctx = u := by
    simp only [AdjustResolution, ho, hne, Bool.false_eq_true, if_false,
      downgradeFind_of_stable _ ctx hf3, hup]
  have hmem := List.mem_of_find?_eq_some hu
  have hpu := List.find?_some hu
  simp only [Bool.and_eq_true, decide_eq_true_eq] at hpu
  refine ⟨hadj ▸ hmem, hadj ▸ hpu.1, hadj ▸ hpu.2, ?_⟩
  intro q hq hfit hgt
  rw [hadj]
  by_contra hcon
  push_neg at hcon
  have hnone := find?_above_none (fun r => decide (r.minBitrate ≤ ctx.bandwidthKbps))
    StandardPresets hdesc current.height u hu
  have := List.find?_eq_none.mp hnone q hq
  simp only [Bool.and_eq_true, decide_eq_true_eq] at this
  exact this ⟨hfit, by omega⟩

/-- C6 amended, witness: with current 480p and 20 Mbps of budget the adjusted
preset is a qualifying upgrade and no qualifying catalog entry is taller. -/
theorem adjustResolution_stable_upgrade_largest_witness :
    AdjustResolution
        { width := 854, height := 480, label := "480p", minBitrate := 1000 }
        { deviceType := "", bandwidthKbps := 20000, preferUpscale := false,
          allowLowRes := false, manualOverride := "", recentFailures := 0,
          adaptiveEnabled := true } ∈ StandardPresets ∧
    (AdjustResolution
        { width := 854, height := 480, label := "480p", minBitrate := 1000 }
        { deviceType := "", bandwidthKbps := 20000, preferUpscale := false,
          allowLowRes := false, manualOverride := "", recentFailures := 0,
          adaptiveEnabled := true }).minBitrate ≤ (20000 : Int) ∧
    (AdjustResolution
        { width := 854, height := 480, label := "480p", minBitrate := 1000 }
        { deviceType := "", bandwidthKbps := 20000, preferUpscale := false,
          allowLowRes := false, manualOverride := "", recentFailures := 0,
          adaptiveEnabled := true }).height > (480 : Int) ∧
    ∀ q ∈ StandardPresets, q.minBitrate ≤ (20000 : Int) → q.height > (480 : Int) →
      q.height ≤ (AdjustResolution
        { width := 854, height := 480, label := "480p", minBitrate := 1000 }
        { deviceType := "", bandwidthKbps := 20000, preferUpscale := false,
          allowLowRes := false, manualOverride := "", recentFailures := 0,
          adaptiveEnabled := true }).height :=
  adjustResolution_stable_upgrade_largest
    { width := 854, height := 480, label := "480p", minBitrate := 1000 }
    { deviceType := "", bandwidthKbps := 20000, preferUpscale := false,
      allowLowRes := false, manualOverride := "", recentFailures := 0,
      adaptiveEnabled := true }
    rfl rfl rfl
    ⟨{ width := 1280, height := 720, label := "720p", minBitrate := 2500 },
      by decide, by decide, by decide⟩

/-- C2 counterexample: for a 100x100 source with an absent (nil) client
context — which certainly does not prefer upscaling — `SelectPreset` takes the
fallback path and returns the catalog default 1080p preset, whose height 1080
exceeds the source height 100. -/
theorem selectPreset_fallback_upscales :
    SelectPreset 100 100 none =
      .ok { preset := { width := 1920, height := 1080, label := "1080p",
                        minBitrate := 5000, isDefault := true },
            reason := "No suitable preset found, falling back to default" } ∧
    ((none : Option ClientContext).elim true (fun c => !c.preferUpscale)) = true ∧
    ¬ ((1080 : Int) ≤ 100) := by
  refine ⟨by rfl, by decide, by decide⟩

/-- C2 amended: when the context does not explicitly prefer upscaling, any
preset returned by `SelectPreset` on the main selection path has height at
most the source height; only the fallback to the catalog default (identified
by its fallback rationale) may exceed it. -/
theorem selectPreset_no_upscale_except_fallback (sourceWidth sourceHeight : Int)
    (ctx : Option ClientContext) (d : ScalingDecision)
    (hup : (ctx.elim true (fun c => !c.preferUpscale)) = true)
    (hok : SelectPreset sourceWidth sourceHeight ctx = .ok d) :
    d.preset.height ≤ sourceHeight ∨
      d.reason = ("No suitable preset found, falling back to default") := by
  unfold SelectPreset at hok
  cases hf : StandardPresets.find? (fun preset =>
      !(IsUpscale sourceWidth sourceHeight preset.width preset.height &&
          (ctx.elim true (fun c => !c.preferUpscale))) &&
      !(ctx.elim false (fun c =>
          decide (0 < c.bandwidthKbps) && decide (preset.minBitrate > c.bandwidthKbps)))) with
  | some preset =>
    rw [hf] at hok
    have hp := List.find?_some hf
    simp only [Bool.and_eq_true, Bool.not_eq_eq_eq_not, Bool.not_true] at hp
    have hup' : (IsUpscale sourceWidth sourceHeight preset.width preset.height &&
        (ctx.elim true (fun c => !c.preferUpscale))) = false := by
      simpa using hp.1
    rw [hup] at hup'
    simp only [Bool.and_true] at hup'
    left
    have hd : d.preset = preset := by
      injection hok with hok
      rw [← hok]
    rw [hd]
    unfold IsUpscale at hup'
    simp only [Bool.or_eq_false_iff, decide_eq_false_iff_not, not_lt] at hup'
    exact hup'.2
  | none =>
    rw [hf] at hok
    cases hdef : StandardPresets.find? (fun preset => preset.isDefault) with
    | some preset =>
      rw [hdef] at hok
      right
      injection hok with hok
      rw [← hok]
    | none =>
      rw [hdef] at hok
      exact absurd hok (by simp)

/-- C2 amended, witness: a 1920x1080 source with no context selects the 1080p
preset on the main path, whose height does not exceed the source height. -/
theorem selectPreset_no_upscale_except_fallback_witness :
    ({ preset := preset1080, reason := "Selected 1080p based on source 1920x1080" } :
        ScalingDecision).preset.height ≤ (1080 : Int) ∨
      ({ preset := preset1080, reason := "Selected 1080p based on source 1920x1080" } :
        ScalingDecision).reason = ("No suitable preset found, falling back to default") :=
  selectPreset_no_upscale_except_fallback 1920 1080 none
    { preset := preset1080, reason := "Selected 1080p based on source 1920x1080" }
    (by decide) (by rfl)

/-! ## Dispatcher characterization -/

/-- Splitting a list by a predicate preserves total length. -/
theorem filter_length_split {α : Type} (p : α → Bool) (l : List α) :
    (l.filter p).length + (l.filter (fun a => !(p a))).length = l.length := by
  induction l with
  | nil => simp
  | cons a t ih =>
    by_cases h : p a <;> simp [List.filter_cons, h] <;> omega

/-- Closed form of the dispatcher fold: with pairwise-distinct keys none of
which were seen before, the run records one success per passing variant, one
`execution` error per failing variant, and clears the flag exactly when some
variant fails. -/
theorem transcode_foldl_spec (profile : TranscodeProfile) (media : MediaInfo)
    (exec : Variant → Bool) (slug slugDir : String) :
    ∀ (l : List Variant) (s : TranscodeState),
      (l.map variantKey).Nodup → (∀ v ∈ l, variantKey v ∉ s.seen) →
      l.foldl (transcodeStep profile media exec slug slugDir) s =
        { success := s.success && l.all exec
          variants := s.variants ++ (l.filter (fun v => exec v)).map (variantRecord media slug)
          errors := s.errors ++
            (l.filter (fun v => !(exec v))).map (executionError profile slug slugDir)
          seen := s.seen ++ l.map variantKey } := by
  intro l
  induction l with
  | nil =>
    intro s _ _
    cases s
    simp
  | cons v t ih =>
    intro s hnd hseen
    have hv : variantKey v ∉ s.seen := hseen v (List.mem_cons_self v t)
    have hnd' : (t.map variantKey).Nodup := by
      simp only [List.map_cons, List.nodup_cons] at hnd
      exact hnd.2
    have hkv : variantKey v ∉ t.map variantKey := by
      simp only [List.map_cons, List.nodup_cons] at hnd
      exact hnd.1
    rw [List.foldl_cons]
    by_cases he : exec v = true
    · have hstep : transcodeStep profile media exec slug slugDir s v =
          { s with
            seen := s.seen ++ [variantKey v]
            variants := s.variants ++ [variantRecord media slug v] } := by
        unfold transcodeStep
        rw [if_neg hv, if_pos he]
      rw [hstep]
      rw [ih _ hnd' ?side]
      case side =>
        intro w hw
        simp only [List.mem_append, List.mem_singleton]
        rintro (hcon | hcon)
        · exact hseen w (List.mem_cons_of_mem v hw) hcon
        · exact hkv (hcon ▸ List.mem_map_of_mem variantKey hw)
      simp only [List.filter_cons, he, List.all_cons, List.map_cons, if_pos]
      simp [List.append_assoc, Bool.and_assoc]
    · have he' : exec v = false := by simpa using he
      have hstep : transcodeStep profile media exec slug slugDir s v =
          { s with
            seen := s.seen ++ [variantKey v]
            success := false
            errors := s.errors ++ [executionError profile slug slugDir v] } := by
        unfold transcodeStep
        rw [if_neg hv, if_neg (by simp [he'])]
      rw [hstep]
      rw [ih _ hnd' ?side]
      case side =>
        intro w hw
        simp only [List.mem_append, List.mem_singleton]
        rintro (hcon | hcon)
        · exact hseen w (List.mem_cons_of_mem v hw) hcon
        · exact hkv (hcon ▸ List.mem_map_of_mem variantKey hw)
      simp only [List.filter_cons, he', List.all_cons, List.map_cons, Bool.not_false,
        if_pos, if_neg]
      simp [List.append_assoc]

/-- C1: over five requested distinct variants that all pass the height filter,
with exactly one variant's external invocation exiting non-zero, the
dispatcher returns success=false, exactly four recorded variants, exactly one
recorded error tagged stage="execution", and the four successes are exactly
the records an unfailing run would produce for those variants. -/
theorem transcode_five_one_failure (profile : TranscodeProfile) (media : MediaInfo)
    (exec : Variant → Bool)
    (hall : allowedVariants profile media = profile.variants)
    (h5 : profile.variants.length = 5)
    (hnd : (profile.variants.map variantKey).Nodup)
    (h1 : (profile.variants.filter (fun v => !(exec v))).length = 1) :
    (Transcode profile media exec).success = false ∧
    (Transcode profile media exec).variants.length = 4 ∧
    (Transcode profile media exec).errors.length = 1 ∧
    (∀ e ∈ (Transcode profile media exec).errors, e.stage = ("execution")) ∧
    (Transcode profile media exec).variants =
      (profile.variants.filter (fun v => exec v)).map
        (variantRecord media (slugOf profile.inputPath)) := by
  rw [← hall] at h5 hnd h1 ⊢
  have hspec := transcode_foldl_spec profile media exec (slugOf profile.inputPath)
    (joinPath profile.outputDir (slugOf profile.inputPath))
    (allowedVariants profile media)
    { success := true, variants := [], errors := [], seen := [] }
    hnd (by intro v _; simp)
  have htr : Transcode profile media exec =
      { inputPath := profile.inputPath
        outputDir := joinPath profile.outputDir (slugOf profile.inputPath)
        duration := media.duration
        success := (allowedVariants profile media).all exec
        variants := ((allowedVariants profile media).filter (fun v => exec v)).map
          (variantRecord media (slugOf profile.inputPath))
        profile := profile
        errors := ((allowedVariants profile media).filter (fun v => !(exec v))).map
          (executionError profile (slugOf profile.inputPath)
            (joinPath profile.outputDir (slugOf profile.inputPath))) } := by
    unfold Transcode
    dsimp only
    rw [hspec]
    simp
  have hfail : ∃ v ∈ allowedVariants profile media, exec v = false := by
    cases hf : (allowedVariants profile media).filter (fun v => !(exec v)) with
    | nil => rw [hf] at h1; simp at h1
    | cons w ws =>
      refine ⟨w, ?_, ?_⟩
      · exact List.mem_of_mem_filter (hf ▸ List.mem_cons_self w ws)
      · have := List.of_mem_filter (hf ▸ List.mem_cons_self w ws)
        simpa using this
  have hall : (allowedVariants profile media).all exec = false := by
    obtain ⟨v, hv, hvf⟩ := hfail
    apply Bool.eq_false_iff.mpr
    intro hcon
    have := List.all_eq_true.mp hcon v hv
    rw [hvf] at this
    exact Bool.false_ne_true this
  have hlen := filter_length_split (fun v => exec v) (allowedVariants profile media)
  have hfeq : ((allowedVariants profile media).filter (fun v => !(exec v))) =
      (allowedVariants profile media).filter (fun v => !((fun w => exec w) v)) := rfl
  refine ⟨?_, ?_, ?_, ?_, ?_⟩
  · rw [htr]; exact hall
  · rw [htr]
    simp only [List.length_map]
    rw [← hfeq] at hlen
    omega
  · rw [htr]; simp only [List.length_map]; exact h1
  · rw [htr]
    intro e he
    simp only [List.mem_map] at he
    obtain ⟨v, _, hv⟩ := he
    rw [← hv]
    rfl
  · rw [htr]

/-- C1 witness: the five-variant scenario with the 720p invocation failing
has all hypotheses checked concretely and the conclusions delivered by the
dispatcher theorem. -/
theorem transcode_five_one_failure_witness :
    (Transcode profileFive mediaFullHD execFailing720).success = false ∧
    (Transcode profileFive mediaFullHD execFailing720).variants.length = 4 ∧
    (Transcode profileFive mediaFullHD execFailing720).errors.length = 1 ∧
    (∀ e ∈ (Transcode profileFive mediaFullHD execFailing720).errors,
      e.stage = ("execution")) ∧
    (Transcode profileFive mediaFullHD execFailing720).variants =
      (profileFive.variants.filter (fun v => execFailing720 v)).map
        (variantRecord mediaFullHD (slugOf profileFive.inputPath)) :=
  transcode_five_one_failure profileFive mediaFullHD execFailing720
    (by decide) (by decide) (by decide) (by decide)

/-! ## Segmenter and aggregate-flag theorems -/

/-- C9: with an unconfigured (zero) profile segment length and a measured
keyframe interval of 3.2 seconds, the effective segment duration is 3 — the
interval rounded to the nearest whole second — and it is the ninth element
(`-hls_time`'s argument) of the external HLS invocation. -/
theorem effectiveSegmentLength_keyframe_32 (mi : MediaInfo)
    (hkf : mi.keyframeInterval = 16 / 5) :
    effectiveSegmentLength 0 (some mi) = 3 ∧
    ∀ (inputPath outputDir manifestName : String),
      (buildSegmentCommand inputPath outputDir manifestName ("hls")
        (effectiveSegmentLength 0 (some mi)) (some mi))[8]? = some ("3") := by
  have h3 : effectiveSegmentLength 0 (some mi) = 3 := by
    unfold effectiveSegmentLength
    rw [if_pos rfl]
    dsimp only
    rw [hkf, if_pos (by norm_num)]
    unfold ratTrunc
    rw [if_neg (by norm_num)]
    rw [show ((16 : ℚ) / 5 + 1 / 2) = 37 / 10 by norm_num]
    rw [Int.floor_eq_iff]
    norm_num
  refine ⟨h3, ?_⟩
  intro inputPath outputDir manifestName
  rw [h3]
  rfl

/-- C9 witness: the theorem applied to a concrete descriptor whose keyframe
interval is exactly 3.2 seconds. -/
theorem effectiveSegmentLength_keyframe_32_witness :
    effectiveSegmentLength 0 (some mediaKF32) = 3 ∧
    ∀ (inputPath outputDir manifestName : String),
      (buildSegmentCommand inputPath outputDir manifestName ("hls")
        (effectiveSegmentLength 0 (some mediaKF32)) (some mediaKF32))[8]? = some ("3") :=
  effectiveSegmentLength_keyframe_32 mediaKF32 rfl

/-- Every dispatcher step keeps the flag-error agreement: the flag is true
exactly while the error list is empty. -/
theorem transcodeStep_flag_inv (profile : TranscodeProfile) (media : MediaInfo)
    (exec : Variant → Bool) (slug slugDir : String) :
    ∀ (l : List Variant) (s : TranscodeState), (s.success = true ↔ s.errors = []) →
      ((l.foldl (transcodeStep profile media exec slug slugDir) s).success = true ↔
        (l.foldl (transcodeStep profile media exec slug slugDir) s).errors = []) := by
  intro l
  induction l with
  | nil => intro s hs; simpa using hs
  | cons v t ih =>
    intro s hs
    rw [List.foldl_cons]
    apply ih
    unfold transcodeStep
    by_cases hseen : variantKey v ∈ s.seen
    · rw [if_pos hseen]; exact hs
    · rw [if_neg hseen]
      by_cases he : exec v = true
      · rw [if_pos he]; simpa using hs
      · rw [if_neg he]
        simp

/-- Every segmenter step keeps the flag-error agreement. -/
theorem segmentStep_flag_inv (res : TranscodeResult) (format : String)
    (analyze : String → Option MediaInfo) (mkdirOK : String → Bool)
    (run : List String → Bool) :
    ∀ (l : List ResolutionVariant) (s : SegmentResult), (s.success = true ↔ s.errors = []) →
      ((l.foldl (segmentStep res format analyze mkdirOK run) s).success = true ↔
        (l.foldl (segmentStep res format analyze mkdirOK run) s).errors = []) := by
  intro l
  induction l with
  | nil => intro s hs; simpa using hs
  | cons v t ih =>
    intro s hs
    rw [List.foldl_cons]
    apply ih
    unfold segmentStep
    by_cases hmk : mkdirOK (joinPath res.outputDir (LabelFromFilename v.outputFilename)) = true
    · rw [if_neg (by simp [hmk])]
      by_cases hrun : run (buildSegmentCommand
          (joinPath res.outputDir v.outputFilename)
          (joinPath res.outputDir (LabelFromFilename v.outputFilename))
          (LabelFromFilename v.outputFilename ++ (".") ++ manifestExtension format)
          format
          (effectiveSegmentLength res.profile.segmentLength
            (analyze (joinPath res.outputDir v.outputFilename)))
          (analyze (joinPath res.outputDir v.outputFilename))) = true
      · rw [if_neg (by simp [hrun])]
        simpa using hs
      · rw [if_pos (by simp [hrun])]
        simp
    · rw [if_pos (by simp [hmk])]
      simp

/-- C10: for both aggregate results — the dispatcher's and the segmenter's
(whenever the latter returns a result at all) — the success flag is true
exactly when the error list is empty. -/
theorem aggregate_success_iff_no_errors :
    (∀ (profile : TranscodeProfile) (media : MediaInfo) (exec : Variant → Bool),
      ((Transcode profile media exec).success = true ↔
        (Transcode profile media exec).errors = [])) ∧
    (∀ (result : Option TranscodeResult) (format : String)
        (analyze : String → Option MediaInfo) (mkdirOK : String → Bool)
        (run : List String → Bool) (seg : SegmentResult),
      SegmentMedia result format analyze mkdirOK run = .ok seg →
      (seg.success = true ↔ seg.errors = [])) := by
  constructor
  · intro profile media exec
    unfold Transcode
    dsimp only
    exact transcodeStep_flag_inv profile media exec _ _ _ _ (by simp)
  · intro result format analyze mkdirOK run seg hok
    cases result with
    | none => exact absurd hok (by simp [SegmentMedia])
    | some res =>
      unfold SegmentMedia at hok
      dsimp only at hok
      by_cases hlen : res.variants.length = 0
      · rw [if_pos hlen] at hok
        exact absurd hok (by simp)
      · rw [if_neg hlen] at hok
        injection hok with hok
        rw [← hok]
        exact segmentStep_flag_inv res format analyze mkdirOK run _ _ (by simp)

/-- C10 witness: the agreement applied to the concrete five-variant dispatcher
run and a concrete one-variant segmentation run. -/
theorem aggregate_success_iff_no_errors_witness :
    ((Transcode profileFive mediaFullHD execFailing720).success = true ↔
      (Transcode profileFive mediaFullHD execFailing720).errors = []) ∧
    (segResW.success = true ↔ segResW.errors = []) :=
  ⟨aggregate_success_iff_no_errors.1 profileFive mediaFullHD execFailing720,
    aggregate_success_iff_no_errors.2 (some segInputW) ("hls") (fun _ => none)
      (fun _ => true) (fun _ => true) segResW (by rfl)⟩

/-- C8 counterexample: a run whose only requested variant is filtered out as
an upscale leaves zero allowed variants, yet `Transcode` does not abort: it
returns a successful, empty result with no error. -/
theorem transcode_zero_allowed_no_abort :
    allowedVariants profileUpscaleOnly mediaFullHD = [] ∧
    (Transcode profileUpscaleOnly mediaFullHD (fun _ => true)).success = true ∧
    (Transcode profileUpscaleOnly mediaFullHD (fun _ => true)).errors = [] ∧
    (Transcode profileUpscaleOnly mediaFullHD (fun _ => true)).variants = [] := by
  refine ⟨by decide, by decide, by decide, by decide⟩

/-- C8 amended: zero variants at segmentation and zero manifests at
aggregation are hard validation failures that abort the whole call before any
per-variant work; but a dispatcher run left with zero allowed variants after
filtering is NOT aborted — it returns an empty successful result, and the
condition only surfaces downstream when segmentation rejects the empty
variant list. -/
theorem zero_work_validation :
    (∀ (format : String) (analyze : String → Option MediaInfo)
        (mkdirOK : String → Bool) (run : List String → Bool)
        (result : Option TranscodeResult),
      (result.elim True (fun r => r.variants = [])) →
      SegmentMedia result format analyze mkdirOK run =
        .error { op := "validate", msg := "no variants to segment" }) ∧
    (∀ (seg : Option SegmentResult) (preserve : Bool) (existingRaw : String),
      (seg.elim True (fun s => s.manifests = [])) →
      GenerateMasterManifest seg preserve existingRaw =
        .error { op := "validate", msg := "no manifests to aggregate" }) ∧
    (∀ (profile : TranscodeProfile) (media : MediaInfo) (exec : Variant → Bool),
      allowedVariants profile media = [] →
      (Transcode profile media exec).success = true ∧
      (Transcode profile media exec).errors = [] ∧
      (Transcode profile media exec).variants = []) := by
  refine ⟨?_, ?_, ?_⟩
  · intro format analyze mkdirOK run result hres
    cases result with
    | none => rfl
    | some r =>
      simp only [Option.elim] at hres
      simp [SegmentMedia, hres]
  · intro seg preserve existingRaw hseg
    cases seg with
    | none => rfl
    | some s =>
      simp only [Option.elim] at hseg
      simp [GenerateMasterManifest, hseg]
  · intro profile media exec hallow
    unfold Transcode
    dsimp only
    rw [hallow]
    simp

/-- C8 amended, witness: the two aborts and the dispatcher non-abort at
concrete inputs. -/
theorem zero_work_validation_witness :
    SegmentMedia none ("hls") (fun _ => none) (fun _ => true) (fun _ => true) =
      .error { op := "validate", msg := "no variants to segment" } ∧
    GenerateMasterManifest none false ("") =
      .error { op := "validate", msg := "no manifests to aggregate" } ∧
    ((Transcode profileUpscaleOnly mediaFullHD (fun _ => true)).success = true ∧
      (Transcode profileUpscaleOnly mediaFullHD (fun _ => true)).errors = [] ∧
      (Transcode profileUpscaleOnly mediaFullHD (fun _ => true)).variants = []) :=
  ⟨zero_work_validation.1 ("hls") (fun _ => none) (fun _ => true) (fun _ => true) none
      trivial,
    zero_work_validation.2.1 none false ("") trivial,
    zero_work_validation.2.2 profileUpscaleOnly mediaFullHD (fun _ => true) (by decide)⟩

/-! ## Manifester: merge and ordering -/

/-- Every assignment pair fed into the merged map stores an entry whose label
field equals its key. -/
theorem pairs_label_eq_key (raw : String) (manifests : List String) :
    ∀ q ∈ existingPairs raw ++ newPairs manifests, (Prod.snd q).label = q.1 := by
  intro q hq
  rcases List.mem_append.mp hq with h | h
  · obtain ⟨e, _, rfl⟩ := List.mem_map.mp h
    rfl
  · obtain ⟨m, _, rfl⟩ := List.mem_map.mp h
    rfl

/-- If every pair's entry label equals its key, a successful `lastAssoc`
lookup returns an entry labelled with the looked-up key. -/
theorem lastAssoc_label (ps : List (String × ManifestMeta))
    (hps : ∀ q ∈ ps, (Prod.snd q).label = q.1) (k : String) (e : ManifestMeta)
    (h : lastAssoc ps k = some e) : e.label = k := by
  unfold lastAssoc at h
  cases hf : ps.reverse.find? (fun q => q.1 == k) with
  | none => rw [hf] at h; exact absurd h (by simp)
  | some q =>
    rw [hf] at h
    have h' : Prod.snd q = e := by simpa using h
    have h1 := List.find?_some hf
    have h2 : q ∈ ps := List.mem_reverse.mp (List.mem_of_find?_eq_some hf)
    rw [← h', hps q h2]
    exact eq_of_beq h1

/-- A successful merged lookup returns an entry labelled with the key. -/
theorem mergedLookup_label (raw : String) (manifests : List String) (k : String)
    (e : ManifestMeta) (h : mergedLookup raw manifests k = some e) : e.label = k :=
  lastAssoc_label _ (pairs_label_eq_key raw manifests) k e h

/-- The labels of the reconciled entry list are exactly the canonical labels
whose merged lookup succeeds, in canonical order. -/
theorem reconcile_labels (raw : String) (manifests : List String) :
    (reconcileEntries raw manifests).map (fun e => e.label) =
      canonicalOrder.filter (fun l => (mergedLookup raw manifests l).isSome) := by
  unfold reconcileEntries
  have main : ∀ (ks : List String),
      (ks.filterMap (mergedLookup raw manifests)).map (fun e => e.label) =
        ks.filter (fun l => (mergedLookup raw manifests l).isSome) := by
    intro ks
    induction ks with
    | nil => rfl
    | cons k t ih =>
      rw [List.filterMap_cons, List.filter_cons]
      cases hk : mergedLookup raw manifests k with
      | none => exact ih
      | some e =>
        simp only [hk, Option.isSome_some, if_pos, List.map_cons, ih]
        rw [mergedLookup_label raw manifests k e hk]
  exact main canonicalOrder

/-- C4: among the reconciled entries, those labelled 144p, 720p and 1080p
always occur in exactly that relative order, whatever the order of the
existing manifest's entries or of the new sub-manifest list. -/
theorem reconcile_canonical_three (raw : String) (manifests : List String) :
    ((reconcileEntries raw manifests).map (fun e => e.label)).Sublist canonicalOrder ∧
    (((reconcileEntries raw manifests).map (fun e => e.label)).filter
        (fun l => l == ("144p") || l == ("720p") || l == ("1080p"))).Sublist
      [("144p"), ("720p"), ("1080p")] := by
  refine ⟨?_, ?_⟩
  · rw [reconcile_labels]
    exact List.filter_sublist _
  rw [reconcile_labels]
  have h1 : (canonicalOrder.filter
      (fun l => (mergedLookup raw manifests l).isSome)).Sublist canonicalOrder :=
    List.filter_sublist _
  have h2 := h1.filter (fun l => l == ("144p") || l == ("720p") || l == ("1080p"))
  have h3 : canonicalOrder.filter
      (fun l => l == ("144p") || l == ("720p") || l == ("1080p")) =
      [("144p"), ("720p"), ("1080p")] := by decide
  rw [h3] at h2
  exact h2

/-- C5 counterexample: the old manifest's only entry is labelled `999p`, a
label outside the canonical order table, and reconciliation silently drops it
— contradicting "every entry present only in the old manifest survives
unchanged". -/
theorem reconcile_drops_noncanonical_old_entry :
    parseHLSManifest manifest999p =
      [{ label := "999p", bitrate := 7, resolution := "100x99",
         manifestURL := "999p/999p.m3u8" }] ∧
    lastAssoc (newPairs [("144p.m3u8")]) ("999p") = none ∧
    reconcileEntries manifest999p [("144p.m3u8")] =
      [{ label := "144p", bitrate := 150000, resolution := "256x144",
         manifestURL := "144p/144p.m3u8" }] ∧
    ∀ e ∈ reconcileEntries manifest999p [("144p.m3u8")], e.label ≠ ("999p") := by
  refine ⟨by decide, by decide, by decide, by decide⟩

/-- Last-wins lookup across an assignment concatenation: the later block wins. -/
theorem lastAssoc_append (a b : List (String × ManifestMeta)) (k : String) :
    lastAssoc (a ++ b) k = (lastAssoc b k).or (lastAssoc a k) := by
  unfold lastAssoc
  rw [List.reverse_append, List.find?_append]
  cases hb : b.reverse.find? (fun q => q.1 == k) with
  | some q => simp
  | none => simp

/-- C5 amended: merging is by label.  A new entry overwrites any existing
entry sharing its (canonical) label: the merged lookup for that label returns
the new entry, which appears in the reconciled output and is the unique
output entry bearing that label.  An entry present only in the old manifest
survives unchanged provided its label is one of the canonical order table's
labels; old-only entries with labels outside that table are dropped by the
canonical re-emission. -/
theorem reconcile_merge_by_label (raw : String) (manifests : List String) :
    (∀ (k : String) (e : ManifestMeta), k ∈ canonicalOrder →
      lastAssoc (newPairs manifests) k = some e →
      mergedLookup raw manifests k = some e ∧
      e ∈ reconcileEntries raw manifests ∧
      ∀ x ∈ reconcileEntries raw manifests, x.label = k → x = e) ∧
    (∀ (k : String) (e : ManifestMeta), k ∈ canonicalOrder →
      lastAssoc (newPairs manifests) k = none →
      lastAssoc (existingPairs raw) k = some e →
      e ∈ reconcileEntries raw manifests) := by
  constructor
  · intro k e hk hnew
    have hm : mergedLookup raw manifests k = some e := by
      unfold mergedLookup
      rw [lastAssoc_append, hnew]
      rfl
    refine ⟨hm, List.mem_filterMap.mpr ⟨k, hk, hm⟩, ?_⟩
    intro x hx hlab
    obtain ⟨k', hk', hmk'⟩ := List.mem_filterMap.mp hx
    have hxk' : x.label = k' := mergedLookup_label raw manifests k' x hmk'
    rw [hxk'] at hlab
    subst hlab
    rw [hm] at hmk'
    exact (Option.some_inj.mp hmk').symm
  · intro k e hk hnew hold
    have hm : mergedLookup raw manifests k = some e := by
      unfold mergedLookup
      rw [lastAssoc_append, hnew, hold]
      rfl
    exact List.mem_filterMap.mpr ⟨k, hk, hm⟩

/-- C5 amended, witness: against an old manifest holding a stale 720p entry
and an old-only 360p entry, reconciling with a new `720p.m3u8` sub-manifest
overwrites the stale 720p entry (the new entry is the unique 720p entry of
the output) while the old-only 360p entry survives unchanged. -/
theorem reconcile_merge_by_label_witness :
    (mergedLookup manifest720p360p [("720p.m3u8")] ("720p") = some new720Entry ∧
      new720Entry ∈ reconcileEntries manifest720p360p [("720p.m3u8")] ∧
      ∀ x ∈ reconcileEntries manifest720p360p [("720p.m3u8")],
        x.label = ("720p") → x = new720Entry) ∧
    old360Entry ∈ reconcileEntries manifest720p360p [("720p.m3u8")] :=
  ⟨(reconcile_merge_by_label manifest720p360p [("720p.m3u8")]).1 ("720p")
      new720Entry (by decide) (by decide),
    (reconcile_merge_by_label manifest720p360p [("720p.m3u8")]).2 ("360p")
      old360Entry (by decide) (by decide) (by decide)⟩

/-! ## Round-trip infrastructure for reconcile idempotence -/

/-- Splitting never yields an empty piece list. -/
theorem splitOnChar_ne_nil (sep : Char) : ∀ (cs : List Char), splitOnChar sep cs ≠ [] := by
  intro cs
  induction cs with
  | nil => simp [splitOnChar]
  | cons c rest ih =>
    unfold splitOnChar
    by_cases h : c = sep
    · simp [h]
    · simp only [if_neg h]
      intro hcon
      exact absurd hcon (by simp)

/-- Splitting a separator-free piece followed by a separator peels off the
piece. -/
theorem splitOnChar_append (sep : Char) :
    ∀ (l rest : List Char), sep ∉ l →
      splitOnChar sep (l ++ sep :: rest) = l :: splitOnChar sep rest := by
  intro l
  induction l with
  | nil => intro rest _; simp [splitOnChar]
  | cons c t ih =>
    intro rest hmem
    have hc : ¬ c = sep := fun hcon => hmem (hcon ▸ List.mem_cons_self c t)
    have ht : sep ∉ t := fun hcon => hmem (List.mem_cons_of_mem c hcon)
    simp only [List.cons_append]
    unfold splitOnChar
    rw [if_neg hc, ih rest ht]
    simp only [List.headD_cons, List.tail_cons, List.cons.injEq, true_and]
    rw [splitOnChar.eq_def]

/-- Splitting a separator-free list yields that single piece. -/
theorem splitOnChar_of_not_mem (sep : Char) :
    ∀ (l : List Char), sep ∉ l → splitOnChar sep l = [l] := by
  intro l
  induction l with
  | nil => intro _; rfl
  | cons c t ih =>
    intro hmem
    have hc : ¬ c = sep := fun hcon => hmem (hcon ▸ List.mem_cons_self c t)
    have ht : sep ∉ t := fun hcon => hmem (List.mem_cons_of_mem c hcon)
    unfold splitOnChar
    rw [if_neg hc, ih ht]
    simp

/-- The literal matcher consumes an exact copy of the pattern. -/
theorem dropPref_append : ∀ (p t : List Char), dropPref p (p ++ t) = some t := by
  intro p
  induction p with
  | nil => intro t; rfl
  | cons c ps ih =>
    intro t
    simp only [List.cons_append]
    unfold dropPref
    rw [if_pos rfl]
    exact ih t

/-- Taking while a predicate holds over a satisfying run stops exactly at the
first refuting element. -/
theorem takeWhile_append_stop (p : Char → Bool) :
    ∀ (A : List Char) (q : Char) (t : List Char),
      (∀ c ∈ A, p c = true) → p q = false →
      ((A ++ q :: t).takeWhile p = A ∧ (A ++ q :: t).dropWhile p = q :: t) := by
  intro A
  induction A with
  | nil =>
    intro q t _ hq
    constructor
    · simp [List.takeWhile_cons, hq]
    · simp [List.dropWhile_cons, hq]
  | cons a A' ih =>
    intro q t hA hq
    have ha : p a = true := hA a (List.mem_cons_self a A')
    have hA' : ∀ c ∈ A', p c = true := fun c hc => hA c (List.mem_cons_of_mem a hc)
    obtain ⟨ih1, ih2⟩ := ih q t hA' hq
    constructor
    · simp [List.takeWhile_cons, ha, ih1]
    · simp [List.dropWhile_cons, ha, ih2]

/-- Taking while a predicate holds keeps an entirely satisfying list. -/
theorem takeWhile_all (p : Char → Bool) :
    ∀ (l : List Char), (∀ c ∈ l, p c = true) → l.takeWhile p = l := by
  intro l
  induction l with
  | nil => intro _; rfl
  | cons a t ih =>
    intro h
    simp [List.takeWhile_cons, h a (List.mem_cons_self a t),
      ih (fun c hc => h c (List.mem_cons_of_mem a hc))]

/-- Dropping while a predicate holds is the identity when the head already
refutes the predicate. -/
theorem dropWhile_head_false (p : Char → Bool) (c : Char) (t : List Char)
    (h : p c = false) : (c :: t).dropWhile p = c :: t := by
  simp [List.dropWhile_cons, h]

/-- Digit characters carry their value. -/
theorem digitVal_digitChar (d : Nat) (h : d < 10) : digitVal (Nat.digitChar d) = d := by
  interval_cases d <;> decide

/-- Digit characters are digits. -/
theorem digitChar_isDigit (d : Nat) (h : d < 10) : (Nat.digitChar d).isDigit = true := by
  interval_cases d <;> decide

/-- The digit string of a natural number is nonempty. -/
theorem natDigitChars_ne_nil (n : Nat) : natDigitChars n ≠ [] := by
  by_cases h : n = 0
  · subst h; decide
  · rw [natDigitChars_eq_digits n h]
    simp only [ne_eq, List.reverse_eq_nil_iff, List.map_eq_nil_iff]
    exact Nat.digits_ne_nil_iff_ne_zero.mpr h

/-- Every character of the digit string is a digit. -/
theorem natDigitChars_all_digits (n : Nat) :
    ∀ c ∈ natDigitChars n, c.isDigit = true := by
  by_cases h : n = 0
  · subst h; decide
  · rw [natDigitChars_eq_digits n h]
    intro c hc
    rw [List.mem_reverse] at hc
    obtain ⟨d, hd, rfl⟩ := List.mem_map.mp hc
    exact digitChar_isDigit d (Nat.digits_lt_base (by omega) hd)

/-- Reading the digit string back gives the number. -/
theorem digitsToNat_natDigitChars (n : Nat) : digitsToNat (natDigitChars n) = n := by
  by_cases h : n = 0
  · subst h; decide
  · rw [natDigitChars_eq_digits n h]
    have main : ∀ (L : List Nat), (∀ d ∈ L, d < 10) →
        digitsToNat ((L.map Nat.digitChar).reverse) = Nat.ofDigits 10 L := by
      intro L
      induction L with
      | nil => intro _; decide
      | cons d L' ih =>
        intro hL
        have hd : d < 10 := hL d (List.mem_cons_self d L')
        have hL' : ∀ x ∈ L', x < 10 := fun x hx => hL x (List.mem_cons_of_mem d hx)
        rw [List.map_cons, List.reverse_cons]
        unfold digitsToNat
        rw [List.foldl_append]
        have ihv := ih hL'
        unfold digitsToNat at ihv
        rw [ihv]
        simp only [List.foldl_cons, List.foldl_nil]
        rw [digitVal_digitChar d hd, Nat.ofDigits_cons]
        omega
    rw [main (Nat.digits 10 n) (fun d hd => Nat.digits_lt_base (by omega) hd),
      Nat.ofDigits_digits]

/-- Digits are not whitespace. -/
theorem isDigit_not_space (c : Char) (h : c.isDigit = true) : goIsSpace c = false := by
  unfold Char.isDigit at h
  simp only [Bool.and_eq_true, decide_eq_true_eq] at h
  unfold goIsSpace
  apply Bool.eq_false_iff.mpr
  intro hcon
  simp only [Bool.or_eq_true, beq_iff_eq] at hcon
  rcases hcon with ((((h1 | h1) | h1) | h1) | h1) | h1 <;> (subst h1; revert h; decide)

/-- Dropping while a predicate holds keeps a list none of whose elements
satisfy it. -/
theorem dropWhile_all_false (p : Char → Bool) :
    ∀ (l : List Char), (∀ c ∈ l, p c = false) → l.dropWhile p = l := by
  intro l
  induction l with
  | nil => intro _; rfl
  | cons a t _ =>
    intro h
    exact dropWhile_head_false p a t (h a (List.mem_cons_self a t))

/-- A digit is neither a minus sign nor a plus sign. -/
theorem isDigit_ne_sign (c : Char) (h : c.isDigit = true) : c ≠ '-' ∧ c ≠ '+' := by
  constructor <;> (intro hcon; subst hcon; revert h; decide)

/-- Parsing inverts serialization on a single header line, for entries whose
resolution token is a nonempty whitespace-free run. -/
theorem parseInfLine_infLineChars (e : ManifestMeta)
    (hr1 : e.resolution.data ≠ [])
    (hr2 : ∀ c ∈ e.resolution.data, goIsSpace c = false) :
    parseInfLine (infLineChars e) = some (e.bitrate, e.resolution) := by
  have hQ : (",RESOLUTION=").data = ',' :: ("RESOLUTION=").data := by decide
  have hres_drop : e.resolution.data.dropWhile goIsSpace = e.resolution.data :=
    dropWhile_all_false goIsSpace e.resolution.data hr2
  have hres_take : e.resolution.data.takeWhile (fun c => !(goIsSpace c)) = e.resolution.data :=
    takeWhile_all _ e.resolution.data (fun c hc => by rw [hr2 c hc]; rfl)
  have hres_empty : e.resolution.data.isEmpty = false := by
    cases hres : e.resolution.data with
    | nil => exact absurd hres hr1
    | cons a t => rfl
  by_cases hb : e.bitrate < 0
  · have hic : intChars e.bitrate = '-' :: natDigitChars (-e.bitrate).toNat := by
      unfold intChars; rw [if_pos hb]
    set nd := natDigitChars (-e.bitrate).toNat with hnd
    unfold parseInfLine infLineChars
    rw [List.append_assoc, List.append_assoc]
    rw [hic]
    rw [show ('-' :: nd) ++ ((",RESOLUTION=").data ++ e.resolution.data) =
      '-' :: (nd ++ ((",RESOLUTION=").data ++ e.resolution.data)) from rfl]
    rw [dropPref_append]
    dsimp only
    rw [dropWhile_head_false goIsSpace '-' _ (by decide)]
    rw [show readSign ('-' :: (nd ++ ((",RESOLUTION=").data ++ e.resolution.data))) =
      (true, nd ++ ((",RESOLUTION=").data ++ e.resolution.data)) from by
        simp [readSign]]
    dsimp only
    rw [show nd ++ ((",RESOLUTION=").data ++ e.resolution.data) =
      nd ++ ',' :: (("RESOLUTION=").data ++ e.resolution.data) from by rw [hQ]; rfl]
    obtain ⟨htake, hdrop⟩ := takeWhile_append_stop Char.isDigit nd ','
      (("RESOLUTION=").data ++ e.resolution.data)
      (natDigitChars_all_digits _) (by decide)
    rw [htake, hdrop]
    have hne : nd.isEmpty = false := by
      cases hcs : nd with
      | nil => exact absurd hcs (natDigitChars_ne_nil _)
      | cons a t => rfl
    rw [hne]
    simp only [Bool.false_eq_true, if_false]
    have hdp : dropPref (",RESOLUTION=").data
        (',' :: (("RESOLUTION=").data ++ e.resolution.data)) = some e.resolution.data := by
      rw [hQ]
      exact dropPref_append _ _
    rw [hdp]
    dsimp only
    rw [hres_drop, hres_take, hres_empty]
    simp only [Bool.false_eq_true, if_false]
    rw [digitsToNat_natDigitChars]
    have hval : -(((-e.bitrate).toNat : Nat) : Int) = e.bitrate := by omega
    rw [hval]
    simp
  · have hic : intChars e.bitrate = natDigitChars e.bitrate.toNat := by
      unfold intChars; rw [if_neg hb]
    set nd := natDigitChars e.bitrate.toNat with hnd
    obtain ⟨c0, nd', hc0⟩ : ∃ c0 nd', nd = c0 :: nd' := by
      cases hcs : nd with
      | nil => exact absurd hcs (natDigitChars_ne_nil _)
      | cons a t => exact ⟨a, t, rfl⟩
    have hc0d : c0.isDigit = true := by
      apply natDigitChars_all_digits e.bitrate.toNat
      rw [← hnd, hc0]
      exact List.mem_cons_self c0 nd'
    unfold parseInfLine infLineChars
    rw [List.append_assoc, List.append_assoc]
    rw [hic, hc0]
    rw [show (c0 :: nd') ++ ((",RESOLUTION=").data ++ e.resolution.data) =
      c0 :: (nd' ++ ((",RESOLUTION=").data ++ e.resolution.data)) from rfl]
    rw [dropPref_append]
    dsimp only
    rw [dropWhile_head_false goIsSpace c0 _ (isDigit_not_space c0 hc0d)]
    rw [show readSign (c0 :: (nd' ++ ((",RESOLUTION=").data ++ e.resolution.data))) =
      (false, c0 :: (nd' ++ ((",RESOLUTION=").data ++ e.resolution.data))) from by
        unfold readSign
        dsimp only
        rw [if_neg (isDigit_ne_sign c0 hc0d).1, if_neg (isDigit_ne_sign c0 hc0d).2]]
    dsimp only
    rw [show c0 :: (nd' ++ ((",RESOLUTION=").data ++ e.resolution.data)) =
      (c0 :: nd') ++ ',' :: (("RESOLUTION=").data ++ e.resolution.data) from by rw [hQ]; rfl]
    obtain ⟨htake, hdrop⟩ := takeWhile_append_stop Char.isDigit (c0 :: nd') ','
      (("RESOLUTION=").data ++ e.resolution.data)
      (by rw [← hc0, hnd]; exact natDigitChars_all_digits _) (by decide)
    rw [htake, hdrop]
    rw [show (c0 :: nd').isEmpty = false from rfl]
    simp only [Bool.false_eq_true, if_false]
    have hdp : dropPref (",RESOLUTION=").data
        (',' :: (("RESOLUTION=").data ++ e.resolution.data)) = some e.resolution.data := by
      rw [hQ]
      exact dropPref_append _ _
    rw [hdp]
    dsimp only
    rw [hres_drop, hres_take, hres_empty]
    simp only [Bool.false_eq_true, if_false]
    rw [← hc0, hnd, digitsToNat_natDigitChars]
    have hval : ((e.bitrate.toNat : Nat) : Int) = e.bitrate := by omega
    rw [hval]

/-- A serialized header line never contains a newline (its pieces are the
fixed tags, sign/digit characters, and a whitespace-free resolution). -/
theorem infLineChars_no_newline (e : ManifestMeta)
    (hr2 : ∀ c ∈ e.resolution.data, goIsSpace c = false) : '\n' ∉ infLineChars e := by
  unfold infLineChars
  intro hmem
  rcases List.mem_append.mp hmem with hmem | hres
  · rcases List.mem_append.mp hmem with hmem | hQ
    · rcases List.mem_append.mp hmem with hP | hic
      · exact absurd hP (by decide)
      · unfold intChars at hic
        by_cases hb : e.bitrate < 0
        · rw [if_pos hb] at hic
          rcases List.mem_cons.mp hic with hc | hc
          · exact absurd hc (by decide)
          · have := natDigitChars_all_digits (-e.bitrate).toNat _ hc
            exact absurd this (by decide)
        · rw [if_neg hb] at hic
          have := natDigitChars_all_digits e.bitrate.toNat _ hic
          exact absurd this (by decide)
    · exact absurd hQ (by decide)
  · have := hr2 _ hres
    exact absurd this (by decide)

/-- Every serialized header line starts with the stream-header tag. -/
theorem infLineChars_has_tag (e : ManifestMeta) :
    ("#EXT-X-STREAM-INF").data.isPrefixOf (infLineChars e) = true := by
  rw [List.isPrefixOf_iff_prefix]
  refine ⟨(":BANDWIDTH=").data ++ intChars e.bitrate ++ (",RESOLUTION=").data ++
    e.resolution.data, ?_⟩
  have hP : ("#EXT-X-STREAM-INF:BANDWIDTH=").data =
      ("#EXT-X-STREAM-INF").data ++ (":BANDWIDTH=").data := by decide
  unfold infLineChars
  rw [hP]
  simp [List.append_assoc]

/-- The line list a serialized playlist splits into. -/
theorem splitOnChar_flatten_blocks :
    ∀ (es : List ManifestMeta), wfEntries es →
      splitOnChar '\n' ((es.map entryChars).flatten) = linesOf es := by
  intro es
  induction es with
  | nil => intro _; rfl
  | cons e es' ih =>
    intro h
    have he : wfEntry e := h e (List.mem_cons_self e es')
    have hes' : wfEntries es' := fun x hx => h x (List.mem_cons_of_mem e hx)
    obtain ⟨_, hres, hurl, _, _⟩ := he
    rw [List.map_cons, List.flatten_cons]
    rw [show entryChars e =
      infLineChars e ++ '\n' :: (e.manifestURL.data ++ ['\n']) from rfl]
    rw [show (infLineChars e ++ '\n' :: (e.manifestURL.data ++ ['\n'])) ++
        (es'.map entryChars).flatten =
      infLineChars e ++ '\n' :: (e.manifestURL.data ++
        '\n' :: (es'.map entryChars).flatten) from by simp [List.append_assoc]]
    rw [splitOnChar_append '\n' _ _ (infLineChars_no_newline e hres)]
    rw [splitOnChar_append '\n' _ _ hurl]
    rw [ih hes']
    rfl

/-- A line without the stream-header tag contributes nothing to the parse. -/
theorem parseHLSLines_cons_notag (a : List Char) (rest : List (List Char))
    (ha : ("#EXT-X-STREAM-INF").data.isPrefixOf a = false) :
    parseHLSLines (a :: rest) = parseHLSLines rest := by
  rw [parseHLSLines.eq_def]
  dsimp only
  cases hh : rest.head? <;> simp [ha]

/-- A tagged line followed by its URL line contributes exactly its parsed
entry. -/
theorem parseHLSLines_cons_tag (a b : List Char) (rest : List (List Char))
    (bw : Int) (res : String)
    (ha : ("#EXT-X-STREAM-INF").data.isPrefixOf a = true)
    (hp : parseInfLine a = some (bw, res)) :
    parseHLSLines (a :: b :: rest) =
      { label := extractLabel (String.mk b), bitrate := bw, resolution := res,
        manifestURL := String.mk b } :: parseHLSLines (b :: rest) := by
  rw [parseHLSLines.eq_def]
  dsimp only
  rw [List.head?_cons]
  simp [ha, hp]

/-- The line list of an entry list is never empty. -/
theorem linesOf_ne_nil (es : List ManifestMeta) : linesOf es ≠ [] := by
  cases es <;> simp [linesOf]

/-- Parsing the serialized line list of a well-formed entry list recovers the
entries. -/
theorem parseHLSLines_linesOf :
    ∀ (es : List ManifestMeta), wfEntries es → parseHLSLines (linesOf es) = es := by
  intro es
  induction es with
  | nil => intro _; rfl
  | cons e es' ih =>
    intro h
    have he : wfEntry e := h e (List.mem_cons_self e es')
    have hes' : wfEntries es' := fun x hx => h x (List.mem_cons_of_mem e hx)
    obtain ⟨hr1, hr2, _, htag, hlab⟩ := he
    have hlines : linesOf (e :: es') =
        infLineChars e :: e.manifestURL.data :: linesOf es' := rfl
    rw [hlines]
    rw [parseHLSLines_cons_tag _ _ _ e.bitrate e.resolution (infLineChars_has_tag e)
      (parseInfLine_infLineChars e hr1 hr2)]
    rw [parseHLSLines_cons_notag _ _ htag]
    rw [ih hes']
    have hmk : String.mk e.manifestURL.data = e.manifestURL := rfl
    rw [hmk, hlab]

/-- Round trip: parsing a serialized well-formed playlist recovers its
entries. -/
theorem parseHLSManifest_writeHLSMaster (es : List ManifestMeta) (h : wfEntries es) :
    parseHLSManifest (writeHLSMaster es) = es := by
  unfold parseHLSManifest writeHLSMaster
  rw [show (String.mk (("#EXTM3U\n#EXT-X-VERSION:3\n").data ++
      (es.map entryChars).flatten)).data =
    ("#EXTM3U\n#EXT-X-VERSION:3\n").data ++ (es.map entryChars).flatten from rfl]
  rw [show ("#EXTM3U\n#EXT-X-VERSION:3\n").data =
    ("#EXTM3U").data ++ '\n' :: (("#EXT-X-VERSION:3").data ++ '\n' :: []) from by decide]
  rw [show (("#EXTM3U").data ++ '\n' :: (("#EXT-X-VERSION:3").data ++ '\n' :: [])) ++
      (es.map entryChars).flatten =
    ("#EXTM3U").data ++ '\n' :: (("#EXT-X-VERSION:3").data ++
      '\n' :: (es.map entryChars).flatten) from by simp [List.append_assoc]]
  rw [splitOnChar_append '\n' _ _ (by decide)]
  rw [splitOnChar_append '\n' _ _ (by decide)]
  rw [splitOnChar_flatten_blocks es h]
  rw [parseHLSLines_cons_notag _ _ (by decide)]
  rw [parseHLSLines_cons_notag _ _ (by decide)]
  exact parseHLSLines_linesOf es h

/-- A lookup among pairs whose keys all differ from `k` fails. -/
theorem lastAssoc_eq_none (ps : List (String × ManifestMeta)) (k : String)
    (h : ∀ q ∈ ps, q.1 ≠ k) : lastAssoc ps k = none := by
  unfold lastAssoc
  rw [List.find?_eq_none.mpr]
  · rfl
  · intro q hq
    simp only [beq_iff_eq]
    exact h q (List.mem_reverse.mp hq)

/-- Keys of the reconciled pair list come from the walked key list. -/
theorem pairsOf_keys (f : String → Option ManifestMeta)
    (hf : ∀ k e, f k = some e → e.label = k) (ks : List String) :
    ∀ q ∈ (ks.filterMap f).map (fun e => (e.label, e)), q.1 ∈ ks := by
  intro q hq
  obtain ⟨e, he, rfl⟩ := List.mem_map.mp hq
  obtain ⟨k, hk, hfk⟩ := List.mem_filterMap.mp he
  simpa [hf k e hfk] using hk

/-- Looking a canonical key up in the pair list distilled from a reconciled
entry list gives back exactly the reconciling lookup. -/
theorem lastAssoc_pairsOf (f : String → Option ManifestMeta)
    (hf : ∀ k e, f k = some e → e.label = k) :
    ∀ (ks : List String), ks.Nodup → ∀ k ∈ ks,
      lastAssoc ((ks.filterMap f).map (fun e => (e.label, e))) k = f k := by
  intro ks
  induction ks with
  | nil => intro _ k hk; exact absurd hk (List.not_mem_nil k)
  | cons k0 t ih =>
    intro hnd k hk
    obtain ⟨hk0t, hndt⟩ := List.nodup_cons.mp hnd
    rw [List.filterMap_cons]
    cases hf0 : f k0 with
    | none =>
      rcases List.mem_cons.mp hk with rfl | hkt
      · rw [lastAssoc_eq_none, hf0]
        intro q hq hcon
        exact hk0t (hcon ▸ pairsOf_keys f hf t q hq)
      · exact ih hndt k hkt
    | some e0 =>
      rw [List.map_cons]
      rw [show ((e0.label, e0) :: (t.filterMap f).map (fun e => (e.label, e))) =
        [(e0.label, e0)] ++ (t.filterMap f).map (fun e => (e.label, e)) from rfl]
      rw [lastAssoc_append]
      rcases List.mem_cons.mp hk with rfl | hkt
      · rw [lastAssoc_eq_none ((t.filterMap f).map (fun e => (e.label, e))) k ?keys]
        case keys =>
          intro q hq hcon
          exact hk0t (hcon ▸ pairsOf_keys f hf t q hq)
        show lastAssoc [(e0.label, e0)] k = f k
        have hl : e0.label = k := hf k e0 hf0
        unfold lastAssoc
        simp [hl, hf0]
      · rw [ih hndt k hkt]
        cases hfk : f k with
        | some e => rfl
        | none =>
          show lastAssoc [(e0.label, e0)] k = none
          apply lastAssoc_eq_none
          intro q hq
          rcases List.mem_singleton.mp hq with rfl
          simp only
          rw [hf k0 e0 hf0]
          intro hcon
          exact hk0t (hcon ▸ hkt)

/-- Reconciling against the serialization of a prior reconciliation looks up
the same entries as the original reconciliation. -/
theorem mergedLookup_stable (M : String) (S : List String)
    (hrt : parseHLSManifest (writeHLSMaster (reconcileEntries M S)) = reconcileEntries M S) :
    ∀ k ∈ canonicalOrder,
      mergedLookup (writeHLSMaster (reconcileEntries M S)) S k = mergedLookup M S k := by
  intro k hk
  unfold mergedLookup
  rw [lastAssoc_append, lastAssoc_append]
  cases hn : lastAssoc (newPairs S) k with
  | some e => rfl
  | none =>
    show lastAssoc (existingPairs (writeHLSMaster (reconcileEntries M S))) k =
      lastAssoc (existingPairs M) k
    unfold existingPairs
    rw [hrt]
    rw [show reconcileEntries M S =
      canonicalOrder.filterMap (mergedLookup M S) from rfl]
    rw [lastAssoc_pairsOf (mergedLookup M S) (mergedLookup_label M S)
      canonicalOrder (by decide) k hk]
    unfold mergedLookup
    rw [lastAssoc_append, hn]
    rfl

/-- C3 counterexample: an existing manifest whose first entry's URL line is
itself a stream-header line defeats idempotence — the second reconciliation
of the same new set produces different bytes than the first. -/
theorem reconcile_not_idempotent :
    reconcileHLSMaster (reconcileHLSMaster manifestHeaderURL [("480p.m3u8")])
        [("480p.m3u8")] ≠
      reconcileHLSMaster manifestHeaderURL [("480p.m3u8")] := by decide

/-- C3 amended: reconciliation is idempotent whenever the first
reconciliation's entry set is well-formed (nonempty whitespace-free
resolution tokens, URL lines free of newlines that are not themselves
stream-header lines, labels matching their URLs) — which holds for every
master playlist the pipeline itself produces. -/
theorem reconcile_idempotent_wf (M : String) (S : List String)
    (hwf : wfEntries (reconcileEntries M S)) :
    reconcileHLSMaster (reconcileHLSMaster M S) S = reconcileHLSMaster M S := by
  have hrt := parseHLSManifest_writeHLSMaster (reconcileEntries M S) hwf
  have hpt := mergedLookup_stable M S hrt
  unfold reconcileHLSMaster
  refine congrArg writeHLSMaster ?_
  have main : ∀ (ks : List String),
      (∀ k ∈ ks, mergedLookup (writeHLSMaster (reconcileEntries M S)) S k =
        mergedLookup M S k) →
      ks.filterMap (mergedLookup (writeHLSMaster (reconcileEntries M S)) S) =
        ks.filterMap (mergedLookup M S) := by
    intro ks
    induction ks with
    | nil => intro _; rfl
    | cons k0 t ih =>
      intro hks
      rw [List.filterMap_cons, List.filterMap_cons]
      rw [hks k0 (List.mem_cons_self k0 t)]
      rw [ih (fun k hk => hks k (List.mem_cons_of_mem k0 hk))]
  exact main canonicalOrder hpt

set_option maxHeartbeats 1000000 in
/-- C3 amended, witness: reconciling an ordinary one-entry master with two
new renditions, twice, produces byte-identical output. -/
theorem reconcile_idempotent_wf_witness :
    reconcileHLSMaster
        (reconcileHLSMaster manifest720p [("480p.m3u8"), ("1080p.m3u8")])
        [("480p.m3u8"), ("1080p.m3u8")] =
      reconcileHLSMaster manifest720p [("480p.m3u8"), ("1080p.m3u8")] :=
  reconcile_idempotent_wf manifest720p [("480p.m3u8"), ("1080p.m3u8")] (by decide)
